import Mathlib

/-!
# Reference-counting garbage collector: `Pointer<T, size>` and `PtrDetails<T>`

A shallow embedding of `src/gc_details.h` and `src/gc_pointer.h`.

* Addresses (`T *`) are natural numbers, `0` standing for `nullptr`.
* `unsigned int` values are natural numbers kept below `2 ^ 32`; `++` and `--`
  wrap modulo `2 ^ 32` exactly as the machine operations do.
* `std::list<PtrDetails<T>>` is a `List PtrDetails`; an iterator is a position
  in the list and `end()` is the position `length`.
* Dereferencing `end()` is undefined behaviour; the operations return `none`
  there.
* `delete` and `delete[]` are recorded in a log of deallocation events.
-/

namespace GC

/-- The modulus of `unsigned int` arithmetic, `2 ^ 32`. -/
def UINT_MOD : Nat := 4294967296

/-- The class `PtrDetails<T>` of `gc_details.h`: one element of the garbage
collection information list. -/
structure PtrDetails where
  /-- current reference count (`unsigned int`) -/
  refCount : Nat
  /-- pointer to allocated memory, `0` is `nullptr` -/
  memPtr : Nat
  /-- true if pointing to array -/
  isArray : Bool
  /-- size of array (`unsigned int`) -/
  arraySize : Nat
deriving DecidableEq, Repr

/-- The constructor `PtrDetails(T *ptr, int size)`: `memPtr(ptr)`,
`arraySize(size)` (an `int` converted to `unsigned int`), `refCount(1)`, and
`isArray = true` when `arraySize > 0`. -/
def PtrDetails.ctor (ptr : Nat) (size : Int) : PtrDetails :=
  let arraySize := (size % 4294967296).toNat
  { refCount := 1, memPtr := ptr, isArray := decide (arraySize > 0), arraySize := arraySize }

/-- The statement `p->refCount++` on a record. -/
def incr (d : PtrDetails) : PtrDetails :=
  { d with refCount := (d.refCount + 1) % UINT_MOD }

/-- The statement `p->refCount--` on a record: unsigned arithmetic, so a count
of zero wraps to `2 ^ 32 - 1`. -/
def decr (d : PtrDetails) : PtrDetails :=
  { d with refCount := if d.refCount = 0 then UINT_MOD - 1 else d.refCount - 1 }

/-- A call of a deallocation function: `delete p` or `delete[] p`. -/
inductive Dealloc where
  | scalar (addr : Nat)
  | array (addr : Nat)
deriving DecidableEq, Repr

/-- The address a deallocation event releases. -/
def Dealloc.addr : Dealloc → Nat
  | .scalar a => a
  | .array a => a

/-- The static members of one instantiation `Pointer<T, size>` together with
the observable effects on the environment: `refContainer`, `first`, the number
of `atexit(shutdown)` registrations made so far, and the log of deallocations
in the order they were performed. -/
structure Statics where
  refContainer : List PtrDetails
  first : Bool
  atexitCalls : Nat
  freed : List Dealloc
deriving DecidableEq, Repr

/-- The static initialisation: an empty `refContainer` and `first = true`. -/
def Statics.init : Statics :=
  { refContainer := [], first := true, atexitCalls := 0, freed := [] }

/-- The non-static data members of a `Pointer<T, size>` object. -/
structure Pointer where
  addr : Nat
  isArray : Bool
  arraySize : Nat
deriving DecidableEq, Repr

/-- The default member initialisers: `addr = nullptr`, `isArray = false`,
`arraySize = 0`. -/
def Pointer.fresh : Pointer :=
  { addr := 0, isArray := false, arraySize := 0 }

/-- The function `Pointer::findPtrInfo`: the position of the first record whose
`memPtr` equals `ptr`, or the position `length` (that is `end()`) if none. -/
def findPtrInfo : List PtrDetails → Nat → Nat
  | [], _ => 0
  | d :: ds, ptr => if d.memPtr = ptr then 0 else findPtrInfo ds ptr + 1

/-- Apply a field update through the iterator `p`; `none` when `p` is `end()`
(or beyond), where the dereference is undefined. -/
def modifyAt (f : PtrDetails → PtrDetails) : List PtrDetails → Nat → Option (List PtrDetails)
  | [], _ => none
  | d :: ds, 0 => some (f d :: ds)
  | d :: ds, p + 1 => (modifyAt f ds p).map (fun r => d :: r)

/-- The function `Pointer::setLocalData`: the members of `this` as copied from
the record at iterator `p`; `none` when `p` is `end()`. -/
def setLocalData (reg : List PtrDetails) (p : Nat) : Option Pointer :=
  match reg[p]? with
  | none => none
  | some d => some { addr := d.memPtr, isArray := d.isArray, arraySize := d.arraySize }

/-- The function `Pointer::refContainerSize`. The conversion of the list size
to `int` is the identity for a registry of fewer than `2 ^ 31` records, the
only registries considered. -/
def refContainerSize (g : Statics) : Nat := g.refContainer.length

/-- The find-or-insert part shared by `Pointer(T*)` and `operator=(T*)`: if
`t` is in the list its count is incremented, otherwise
`PtrDetails<T> temp(t, size)` is pushed at the back. -/
def attach (size : Int) (reg : List PtrDetails) (t : Nat) : Option (List PtrDetails) :=
  let p := findPtrInfo reg t
  if p ≠ reg.length then modifyAt incr reg p
  else some (reg ++ [PtrDetails.ctor t size])

/-- The constructor `Pointer<T, size>::Pointer(T *t)`. -/
def Pointer.ctor (size : Int) (g : Statics) (t : Nat) : Option (Statics × Pointer) :=
  let calls := if g.first then g.atexitCalls + 1 else g.atexitCalls
  match attach size g.refContainer t with
  | none => none
  | some reg =>
    match setLocalData reg (findPtrInfo reg t) with
    | none => none
    | some this =>
      some ({ refContainer := reg, first := false, atexitCalls := calls, freed := g.freed }, this)

/-- The copy constructor `Pointer<T, size>::Pointer(const Pointer &ob)`. -/
def Pointer.copyCtor (g : Statics) (ob : Pointer) : Option (Statics × Pointer) :=
  let p := findPtrInfo g.refContainer ob.addr
  match modifyAt incr g.refContainer p with
  | none => none
  | some reg =>
    match setLocalData reg p with
    | none => none
    | some this => some ({ g with refContainer := reg }, this)

/-- The deallocation performed for a record by `collect`: nothing for a null
`memPtr`, otherwise `delete[]` if `isArray` and `delete` if not. -/
def free (d : PtrDetails) : List Dealloc :=
  if d.memPtr ≠ 0 then
    if d.isArray then [Dealloc.array d.memPtr] else [Dealloc.scalar d.memPtr]
  else []

/-- The `for` loop of `collect` up to its `break`: the position of the first
record with `refCount = 0`, or `length` if the scan reaches `end()`. -/
def scan : List PtrDetails → Nat
  | [] => 0
  | d :: ds => if d.refCount > 0 then scan ds + 1 else 0

/-- The `do ... while (p != refContainer.end())` loop of `collect`; `fuel`
bounds the number of scans. One scan either reaches `end()` and the loop ends,
or frees and erases the first zero-count record; `p` is then the position after
the erased record and the loop ends exactly when that is `end()`. -/
def collectLoop : Nat → List PtrDetails → List Dealloc → Bool →
    Option (Bool × List PtrDetails × List Dealloc)
  | 0, _, _, _ => none
  | fuel + 1, reg, log, memfreed =>
    let p := scan reg
    match reg[p]? with
    | none => some (memfreed, reg, log)
    | some d =>
      let reg1 := reg.eraseIdx p
      if p ≠ reg1.length then collectLoop fuel reg1 (log ++ free d) true
      else some (true, reg1, log ++ free d)

/-- The function `Pointer::collect`, with its return value `memfreed`. -/
def collect (g : Statics) : Option (Bool × Statics) :=
  match collectLoop (g.refContainer.length + 1) g.refContainer g.freed false with
  | none => none
  | some (memfreed, reg, log) => some (memfreed, { g with refContainer := reg, freed := log })

/-- The first half of the destructor: look `addr` up and, if it is found and
its count is not zero, decrement the count. -/
def release (reg : List PtrDetails) (addr : Nat) : Option (List PtrDetails) :=
  let p := findPtrInfo reg addr
  if p ≠ reg.length then
    match reg[p]? with
    | none => none
    | some d => if d.refCount ≠ 0 then modifyAt decr reg p else some reg
  else some reg

/-- The destructor `Pointer<T, size>::~Pointer`: the guarded decrement followed
by `collect()`. -/
def Pointer.dtor (g : Statics) (this : Pointer) : Option Statics :=
  match release g.refContainer this.addr with
  | none => none
  | some reg =>
    match collect { g with refContainer := reg } with
    | none => none
    | some (_, g1) => some g1

/-- The default constructor `Pointer()`. Its body is the expression statement
`Pointer(NULL);`, which constructs a temporary `Pointer` from the null address
and destroys it at the end of the statement; the object under construction
keeps its default member initialisers. -/
def Pointer.defaultCtor (size : Int) (g : Statics) : Option (Statics × Pointer) :=
  match Pointer.ctor size g 0 with
  | none => none
  | some (g1, temp) =>
    match Pointer.dtor g1 temp with
    | none => none
    | some g2 => some (g2, Pointer.fresh)

/-- The operator `T *Pointer::operator=(T *t)`: unguarded decrement of the
current target, then find-or-insert of `t`. -/
def Pointer.assignRaw (size : Int) (g : Statics) (this : Pointer) (t : Nat) :
    Option (Statics × Pointer) :=
  match modifyAt decr g.refContainer (findPtrInfo g.refContainer this.addr) with
  | none => none
  | some reg1 =>
    match attach size reg1 t with
    | none => none
    | some reg2 =>
      match setLocalData reg2 (findPtrInfo reg2 t) with
      | none => none
      | some this1 => some ({ g with refContainer := reg2 }, this1)

/-- The operator `Pointer &Pointer::operator=(Pointer &rv)`: unguarded
decrement of the current target, look-up of `rv.addr`, `setLocalData`. -/
def Pointer.assignPtr (g : Statics) (this rv : Pointer) : Option (Statics × Pointer) :=
  match modifyAt decr g.refContainer (findPtrInfo g.refContainer this.addr) with
  | none => none
  | some reg1 =>
    match setLocalData reg1 (findPtrInfo reg1 rv.addr) with
    | none => none
    | some this1 => some ({ g with refContainer := reg1 }, this1)

/-- The function `Pointer::shutdown`. -/
def shutdown (g : Statics) : Option Statics :=
  if refContainerSize g = 0 then some g
  else
    match collect { g with
        refContainer := g.refContainer.map (fun d => { d with refCount := 0 }) } with
    | none => none
    | some (_, g1) => some g1

/-! ## Programs over one instantiation -/

/-- A program state: the statics of the instantiation and the `Pointer`
objects that are currently alive, in order of creation. -/
structure State where
  gc : Statics
  live : List Pointer
deriving DecidableEq, Repr

/-- The state before any `Pointer` has been created. -/
def State.init : State := { gc := Statics.init, live := [] }

/-- The public operations; live objects are named by their position. -/
inductive Op where
  | construct (t : Nat)
  | defaultConstruct
  | copyConstruct (ob : Nat)
  | assignRaw (this : Nat) (t : Nat)
  | assignPtr (this : Nat) (rv : Nat)
  | destroy (this : Nat)
  | collect
  | shutdown
deriving DecidableEq, Repr

/-- One operation on a program state; `none` if it names an object that is not
alive or if the operation itself is undefined. -/
def step (size : Int) (s : State) : Op → Option State
  | .construct t =>
    match Pointer.ctor size s.gc t with
    | none => none
    | some (g, p) => some { gc := g, live := s.live ++ [p] }
  | .defaultConstruct =>
    match Pointer.defaultCtor size s.gc with
    | none => none
    | some (g, p) => some { gc := g, live := s.live ++ [p] }
  | .copyConstruct i =>
    match s.live[i]? with
    | none => none
    | some ob =>
      match Pointer.copyCtor s.gc ob with
      | none => none
      | some (g, p) => some { gc := g, live := s.live ++ [p] }
  | .assignRaw i t =>
    match s.live[i]? with
    | none => none
    | some this =>
      match Pointer.assignRaw size s.gc this t with
      | none => none
      | some (g, p) => some { gc := g, live := s.live.set i p }
  | .assignPtr i j =>
    match s.live[i]?, s.live[j]? with
    | some this, some rv =>
      match Pointer.assignPtr s.gc this rv with
      | none => none
      | some (g, p) => some { gc := g, live := s.live.set i p }
    | _, _ => none
  | .destroy i =>
    match s.live[i]? with
    | none => none
    | some this =>
      match Pointer.dtor s.gc this with
      | none => none
      | some g => some { gc := g, live := s.live.eraseIdx i }
  | .collect =>
    match collect s.gc with
    | none => none
    | some (_, g) => some { s with gc := g }
  | .shutdown =>
    match shutdown s.gc with
    | none => none
    | some g => some { s with gc := g }

/-- Run a sequence of operations. -/
def run (size : Int) : State → List Op → Option State
  | s, [] => some s
  | s, op :: ops =>
    match step size s op with
    | none => none
    | some s1 => run size s1 ops

/-- The states reachable from the initial state by the public operations. -/
inductive Reachable (size : Int) : State → Prop
  | init : Reachable size State.init
  | step {s s1 : State} (op : Op) : Reachable size s → step size s op = some s1 →
      Reachable size s1

/-! ## Vocabulary of the statements -/

/-- The fields of a record other than its count. -/
def shape (d : PtrDetails) : Nat × Bool × Nat := (d.memPtr, d.isArray, d.arraySize)

/-- The test `p->refCount > 0` of the sweep. -/
def PtrDetails.inUse (d : PtrDetails) : Bool := decide (d.refCount > 0)

/-- The records a sweep keeps: those with a nonzero count, in order. -/
def survivors (reg : List PtrDetails) : List PtrDetails :=
  reg.filter (fun d => d.inUse)

/-- The records a sweep removes: those with count zero, in order. -/
def garbage (reg : List PtrDetails) : List PtrDetails :=
  reg.filter (fun d => !d.inUse)

/-- Well-formedness of the registry of `Pointer<T, size>`: no two records have
the same address, and every record has the array flag and the array size that
`PtrDetails(t, size)` gives. -/
def RegInv (size : Int) (reg : List PtrDetails) : Prop :=
  (reg.map (fun d => d.memPtr)).Nodup ∧
    ∀ d ∈ reg, shape d = shape (PtrDetails.ctor d.memPtr size)

/-- The claimed agreement of counts and live objects: every record's count is
the number of live `Pointer` objects whose cached `addr` is the record's
address. -/
def CountsMatch (s : State) : Prop :=
  ∀ d ∈ s.gc.refContainer,
    d.refCount = (s.live.filter (fun p => decide (p.addr = d.memPtr))).length

/-- The claimed registration of live objects: the cached `addr` of every live
`Pointer` is found by `findPtrInfo`. -/
def LiveRegistered (s : State) : Prop :=
  ∀ p ∈ s.live, findPtrInfo s.gc.refContainer p.addr ≠ s.gc.refContainer.length

/-- The range of the template parameter `int size`. -/
def IsInt (size : Int) : Prop := -2147483648 ≤ size ∧ size ≤ 2147483647

/-- The deallocation `Pointer<T, size>` is declared to use for an address:
`delete[]` for a non-zero `size`, `delete` for `size = 0`. -/
def declaredDealloc (size : Int) (a : Nat) : Dealloc :=
  if size ≠ 0 then Dealloc.array a else Dealloc.scalar a

/-- Well-formedness of the deallocation log of `Pointer<T, size>`: only
non-null addresses are deallocated, each with the deallocation function that
the array flag of `PtrDetails(t, size)` selects. -/
def LogInv (size : Int) (log : List Dealloc) : Prop :=
  ∀ ev ∈ log, ev.addr ≠ 0 ∧
    ev = if (PtrDetails.ctor ev.addr size).isArray then Dealloc.array ev.addr
         else Dealloc.scalar ev.addr

/-! ## The registry primitives -/

theorem findPtrInfo_le (reg : List PtrDetails) (t : Nat) : findPtrInfo reg t ≤ reg.length := by
  induction reg with
  | nil => simp [findPtrInfo]
  | cons d ds ih =>
    by_cases h : d.memPtr = t
    · simp [findPtrInfo, h]
    · simp [findPtrInfo, h, ih]

theorem findPtrInfo_end (reg : List PtrDetails) (t : Nat)
    (h : findPtrInfo reg t = reg.length) : ∀ d ∈ reg, d.memPtr ≠ t := by
  induction reg with
  | nil => simp
  | cons d ds ih =>
    by_cases hd : d.memPtr = t
    · simp [findPtrInfo, hd] at h
    · simp only [findPtrInfo, hd, if_false, List.length_cons, Nat.add_right_cancel_iff] at h
      intro e he
      rcases List.mem_cons.mp he with rfl | he
      · exact hd
      · exact ih h e he

theorem findPtrInfo_found (reg : List PtrDetails) (t : Nat)
    (h : findPtrInfo reg t ≠ reg.length) :
    ∃ pre d post, reg = pre ++ d :: post ∧ findPtrInfo reg t = pre.length ∧ d.memPtr = t ∧
      ∀ e ∈ pre, e.memPtr ≠ t := by
  induction reg with
  | nil => simp [findPtrInfo] at h
  | cons d ds ih =>
    by_cases hd : d.memPtr = t
    · exact ⟨[], d, ds, rfl, by simp [findPtrInfo, hd], hd, by simp⟩
    · simp only [findPtrInfo, hd, if_false, List.length_cons, ne_eq,
        Nat.add_right_cancel_iff] at h
      obtain ⟨pre, e, post, h1, h2, h3, h4⟩ := ih h
      refine ⟨d :: pre, e, post, by rw [h1]; rfl, by simp [findPtrInfo, hd, h2], h3, ?_⟩
      intro x hx
      rcases List.mem_cons.mp hx with rfl | hx
      · exact hd
      · exact h4 x hx

theorem findPtrInfo_of_mem (reg : List PtrDetails) (t : Nat) (d : PtrDetails) (hd : d ∈ reg)
    (ht : d.memPtr = t) : findPtrInfo reg t ≠ reg.length :=
  fun h => findPtrInfo_end reg t h d hd ht

theorem findPtrInfo_append (pre : List PtrDetails) (d : PtrDetails) (post : List PtrDetails)
    (t : Nat) (hd : d.memPtr = t) (hpre : ∀ e ∈ pre, e.memPtr ≠ t) :
    findPtrInfo (pre ++ d :: post) t = pre.length := by
  induction pre with
  | nil => simp [findPtrInfo, hd]
  | cons e es ih =>
    have he : e.memPtr ≠ t := hpre e (List.mem_cons_self _ _)
    simp [findPtrInfo, he, ih (fun x hx => hpre x (List.mem_cons_of_mem _ hx))]

theorem modifyAt_append (f : PtrDetails → PtrDetails) (pre : List PtrDetails) (d : PtrDetails)
    (post : List PtrDetails) :
    modifyAt f (pre ++ d :: post) pre.length = some (pre ++ f d :: post) := by
  induction pre with
  | nil => simp [modifyAt]
  | cons e es ih => simp [modifyAt, ih]

theorem modifyAt_none (f : PtrDetails → PtrDetails) (reg : List PtrDetails) :
    ∀ p, reg.length ≤ p → modifyAt f reg p = none := by
  induction reg with
  | nil => intro p _; simp [modifyAt]
  | cons e es ih =>
    intro p hp
    cases p with
    | zero => simp at hp
    | succ q => simp [modifyAt, ih q (by simpa using hp)]

theorem modifyAt_some (f : PtrDetails → PtrDetails) (reg : List PtrDetails) :
    ∀ p reg1, modifyAt f reg p = some reg1 →
      ∃ pre d post, reg = pre ++ d :: post ∧ p = pre.length ∧ reg1 = pre ++ f d :: post := by
  induction reg with
  | nil => intro p reg1 h; simp [modifyAt] at h
  | cons e es ih =>
    intro p reg1 h
    cases p with
    | zero =>
      simp only [modifyAt, Option.some.injEq] at h
      exact ⟨[], e, es, rfl, rfl, h.symm⟩
    | succ q =>
      simp only [modifyAt, Option.map_eq_some'] at h
      obtain ⟨r, hr, rfl⟩ := h
      obtain ⟨pre, d, post, h1, h2, h3⟩ := ih q r hr
      exact ⟨e :: pre, d, post, by rw [h1]; rfl, by simp [h2], by rw [h3]; rfl⟩

theorem modifyAt_map_shape (f : PtrDetails → PtrDetails) (hf : ∀ d, shape (f d) = shape d)
    (reg : List PtrDetails) (p : Nat) (reg1 : List PtrDetails)
    (h : modifyAt f reg p = some reg1) : reg1.map shape = reg.map shape := by
  obtain ⟨pre, d, post, h1, _, h3⟩ := modifyAt_some f reg p reg1 h
  subst h1 h3
  simp [hf]

theorem shape_incr (d : PtrDetails) : shape (incr d) = shape d := by
  simp only [shape, incr]

theorem shape_decr (d : PtrDetails) : shape (decr d) = shape d := by
  simp only [shape, decr]

theorem map_memPtr_of_shape (reg reg1 : List PtrDetails) (h : reg1.map shape = reg.map shape) :
    reg1.map (fun d => d.memPtr) = reg.map (fun d => d.memPtr) := by
  have := congrArg (List.map Prod.fst) h
  simpa [List.map_map, Function.comp_def, shape] using this

theorem findPtrInfo_of_shape (reg reg1 : List PtrDetails) (t : Nat)
    (h : reg1.map shape = reg.map shape) : findPtrInfo reg1 t = findPtrInfo reg t := by
  induction reg generalizing reg1 with
  | nil =>
    have : reg1 = [] := by simpa using h
    subst this; rfl
  | cons d ds ih =>
    cases reg1 with
    | nil => simp at h
    | cons e es =>
      simp only [List.map_cons, List.cons.injEq] at h
      have hm : e.memPtr = d.memPtr := congrArg Prod.fst h.1
      simp [findPtrInfo, hm, ih es h.2]

theorem getElem?_append_length (pre : List PtrDetails) (d : PtrDetails)
    (post : List PtrDetails) : (pre ++ d :: post)[pre.length]? = some d := by
  rw [List.getElem?_append_right (Nat.le_refl _)]
  simp

theorem setLocalData_found (reg : List PtrDetails) (t : Nat)
    (h : findPtrInfo reg t ≠ reg.length) :
    ∃ d, d ∈ reg ∧ d.memPtr = t ∧ reg[findPtrInfo reg t]? = some d ∧
      setLocalData reg (findPtrInfo reg t) =
        some { addr := t, isArray := d.isArray, arraySize := d.arraySize } := by
  obtain ⟨pre, d, post, h1, h2, h3, _⟩ := findPtrInfo_found reg t h
  have hget : reg[findPtrInfo reg t]? = some d := by
    rw [h2, h1]; exact getElem?_append_length pre d post
  refine ⟨d, by rw [h1]; simp, h3, hget, ?_⟩
  simp [setLocalData, hget, h3]

/-! ## The sweep -/

theorem survivors_cons_pos (d : PtrDetails) (ds : List PtrDetails) (h : d.refCount > 0) :
    survivors (d :: ds) = d :: survivors ds := by
  simp [survivors, List.filter_cons, PtrDetails.inUse, h]

theorem survivors_cons_zero (d : PtrDetails) (ds : List PtrDetails) (h : ¬ d.refCount > 0) :
    survivors (d :: ds) = survivors ds := by
  simp only [survivors, List.filter_cons, PtrDetails.inUse, h, decide_False]
  simp

theorem garbage_cons_pos (d : PtrDetails) (ds : List PtrDetails) (h : d.refCount > 0) :
    garbage (d :: ds) = garbage ds := by
  simp [garbage, List.filter_cons, PtrDetails.inUse, h]

theorem garbage_cons_zero (d : PtrDetails) (ds : List PtrDetails) (h : ¬ d.refCount > 0) :
    garbage (d :: ds) = d :: garbage ds := by
  simp only [garbage, List.filter_cons, PtrDetails.inUse, h, decide_False]
  simp

theorem scan_none (reg : List PtrDetails) (h : reg[scan reg]? = none) :
    survivors reg = reg ∧ garbage reg = [] := by
  induction reg with
  | nil => simp [survivors, garbage]
  | cons d ds ih =>
    by_cases hd : d.refCount > 0
    · simp only [scan, hd, if_true, List.getElem?_cons_succ] at h
      obtain ⟨h1, h2⟩ := ih h
      rw [survivors_cons_pos d ds hd, garbage_cons_pos d ds hd, h1, h2]
      exact ⟨rfl, rfl⟩
    · simp [scan, hd] at h

theorem scan_some (reg : List PtrDetails) (d : PtrDetails) (h : reg[scan reg]? = some d) :
    d.refCount = 0 ∧ survivors (reg.eraseIdx (scan reg)) = survivors reg ∧
      garbage reg = d :: garbage (reg.eraseIdx (scan reg)) ∧
      (scan reg = (reg.eraseIdx (scan reg)).length →
        garbage (reg.eraseIdx (scan reg)) = [] ∧ survivors reg = reg.eraseIdx (scan reg)) := by
  induction reg with
  | nil => simp at h
  | cons e es ih =>
    by_cases he : e.refCount > 0
    · simp only [scan, he, if_true, List.getElem?_cons_succ] at h
      obtain ⟨h1, h2, h3, h4⟩ := ih h
      simp only [scan, he, if_true, List.eraseIdx_cons_succ]
      rw [survivors_cons_pos _ _ he, survivors_cons_pos _ _ he, garbage_cons_pos _ _ he,
        garbage_cons_pos _ _ he]
      refine ⟨h1, by rw [h2], h3, ?_⟩
      intro hlen
      simp only [List.length_cons, Nat.add_right_cancel_iff] at hlen
      obtain ⟨h5, h6⟩ := h4 hlen
      exact ⟨h5, by rw [h6]⟩
    · have h0 : e.refCount = 0 := by omega
      simp only [scan, he, if_false, List.getElem?_cons_zero, Option.some.injEq] at h
      subst h
      simp only [scan, he, if_false, List.eraseIdx_cons_zero]
      rw [survivors_cons_zero _ _ he, garbage_cons_zero _ _ he]
      refine ⟨h0, rfl, rfl, ?_⟩
      intro hlen
      have hnil : es = [] := List.length_eq_zero.mp hlen.symm
      subst hnil
      exact ⟨rfl, rfl⟩

theorem collectLoop_eq (fuel : Nat) : ∀ (reg : List PtrDetails) (log : List Dealloc)
    (memfreed : Bool), (garbage reg).length < fuel →
    collectLoop fuel reg log memfreed =
      some (memfreed || !(garbage reg).isEmpty, survivors reg,
        log ++ (garbage reg).flatMap free) := by
  induction fuel with
  | zero => intro reg log memfreed h; omega
  | succ n ih =>
    intro reg log memfreed h
    cases hp : reg[scan reg]? with
    | none =>
      obtain ⟨h1, h2⟩ := scan_none reg hp
      simp [collectLoop, hp, h1, h2]
    | some d =>
      obtain ⟨_, h2, h3, h4⟩ := scan_some reg d hp
      by_cases hend : scan reg = (reg.eraseIdx (scan reg)).length
      · obtain ⟨h5, h6⟩ := h4 hend
        simp only [collectLoop, hp]
        rw [if_neg (by simpa using hend)]
        simp [h3, h5, h6]
      · simp only [collectLoop, hp]
        rw [if_pos hend]
        rw [ih _ _ _ (by rw [h3] at h; simpa using h)]
        simp [h2, h3, List.append_assoc]

theorem garbage_length_le (reg : List PtrDetails) : (garbage reg).length ≤ reg.length :=
  List.length_filter_le _ _

/-- The sweep always returns: its result in closed form. -/
theorem collect_eq (g : Statics) :
    collect g = some (!(garbage g.refContainer).isEmpty,
      { g with refContainer := survivors g.refContainer,
               freed := g.freed ++ (garbage g.refContainer).flatMap free }) := by
  unfold collect
  rw [collectLoop_eq _ _ _ _ (Nat.lt_succ_of_le (garbage_length_le _))]
  simp

/-! ## Well-formedness of the registry is preserved -/

theorem regInv_of_shape (size : Int) (reg reg1 : List PtrDetails)
    (h : reg1.map shape = reg.map shape) (hinv : RegInv size reg) : RegInv size reg1 := by
  refine ⟨by rw [map_memPtr_of_shape reg reg1 h]; exact hinv.1, ?_⟩
  intro d hd
  have hmem : shape d ∈ reg.map shape := by rw [← h]; exact List.mem_map_of_mem _ hd
  obtain ⟨e, he, hes⟩ := List.mem_map.mp hmem
  have hm : e.memPtr = d.memPtr := congrArg Prod.fst hes
  rw [← hes, hinv.2 e he, hm]

theorem regInv_survivors (size : Int) (reg : List PtrDetails) (hinv : RegInv size reg) :
    RegInv size (survivors reg) := by
  refine ⟨?_, fun d hd => hinv.2 d (List.mem_of_mem_filter hd)⟩
  exact List.Nodup.sublist ((List.filter_sublist reg).map _) hinv.1

theorem regInv_push (size : Int) (reg : List PtrDetails) (t : Nat) (hinv : RegInv size reg)
    (ht : ∀ d ∈ reg, d.memPtr ≠ t) : RegInv size (reg ++ [PtrDetails.ctor t size]) := by
  refine ⟨?_, ?_⟩
  · rw [List.map_append, List.nodup_append]
    refine ⟨hinv.1, by simp, ?_⟩
    intro a ha hb
    obtain ⟨d, hd, rfl⟩ := List.mem_map.mp ha
    simp only [List.map_cons, List.map_nil, List.mem_singleton] at hb
    exact ht d hd hb
  · intro d hd
    rcases List.mem_append.mp hd with hd | hd
    · exact hinv.2 d hd
    · simp only [List.mem_singleton] at hd
      subst hd
      rfl

theorem regInv_modifyAt (size : Int) (f : PtrDetails → PtrDetails)
    (hf : ∀ d, shape (f d) = shape d) (reg reg1 : List PtrDetails) (p : Nat)
    (h : modifyAt f reg p = some reg1) (hinv : RegInv size reg) : RegInv size reg1 :=
  regInv_of_shape size reg reg1 (modifyAt_map_shape f hf reg p reg1 h) hinv

theorem regInv_attach (size : Int) (reg reg1 : List PtrDetails) (t : Nat)
    (h : attach size reg t = some reg1) (hinv : RegInv size reg) : RegInv size reg1 := by
  unfold attach at h
  by_cases hp : findPtrInfo reg t = reg.length
  · simp only [hp, ne_eq, not_true_eq_false, if_false, Option.some.injEq] at h
    subst h
    exact regInv_push size reg t hinv (findPtrInfo_end reg t hp)
  · simp only [ne_eq, hp, not_false_eq_true, if_true] at h
    exact regInv_modifyAt size incr shape_incr reg reg1 _ h hinv

theorem regInv_release (size : Int) (reg reg1 : List PtrDetails) (a : Nat)
    (h : release reg a = some reg1) (hinv : RegInv size reg) : RegInv size reg1 := by
  unfold release at h
  by_cases hp : findPtrInfo reg a = reg.length
  · simp only [hp, ne_eq, not_true_eq_false, if_false, Option.some.injEq] at h
    subst h; exact hinv
  · simp only [ne_eq, hp, not_false_eq_true, if_true] at h
    cases hg : reg[findPtrInfo reg a]? with
    | none => simp [hg] at h
    | some d =>
      simp only [hg] at h
      by_cases hc : d.refCount = 0
      · simp only [hc, ne_eq, not_true_eq_false, if_false, Option.some.injEq] at h
        subst h; exact hinv
      · simp only [ne_eq, hc, not_false_eq_true, if_true] at h
        exact regInv_modifyAt size decr shape_decr reg reg1 _ h hinv

theorem regInv_ctor (size : Int) (g g1 : Statics) (t : Nat) (p : Pointer)
    (h : Pointer.ctor size g t = some (g1, p)) (hinv : RegInv size g.refContainer) :
    RegInv size g1.refContainer := by
  unfold Pointer.ctor at h
  cases ha : attach size g.refContainer t with
  | none => simp [ha] at h
  | some reg =>
    simp only [ha] at h
    cases hs : setLocalData reg (findPtrInfo reg t) with
    | none => simp [hs] at h
    | some q =>
      simp only [hs, Option.some.injEq, Prod.mk.injEq] at h
      rw [← h.1]
      exact regInv_attach size _ _ t ha hinv

theorem regInv_copyCtor (size : Int) (g g1 : Statics) (ob p : Pointer)
    (h : Pointer.copyCtor g ob = some (g1, p)) (hinv : RegInv size g.refContainer) :
    RegInv size g1.refContainer := by
  unfold Pointer.copyCtor at h
  cases ha : modifyAt incr g.refContainer (findPtrInfo g.refContainer ob.addr) with
  | none => simp [ha] at h
  | some reg =>
    simp only [ha] at h
    cases hs : setLocalData reg (findPtrInfo g.refContainer ob.addr) with
    | none => simp [hs] at h
    | some q =>
      simp only [hs, Option.some.injEq, Prod.mk.injEq] at h
      rw [← h.1]
      exact regInv_modifyAt size incr shape_incr _ _ _ ha hinv

theorem regInv_dtor (size : Int) (g g1 : Statics) (this : Pointer)
    (h : Pointer.dtor g this = some g1) (hinv : RegInv size g.refContainer) :
    RegInv size g1.refContainer := by
  unfold Pointer.dtor at h
  cases hr : release g.refContainer this.addr with
  | none => simp [hr] at h
  | some reg =>
    simp only [hr, collect_eq, Option.some.injEq] at h
    rw [← h]
    exact regInv_survivors size reg (regInv_release size _ _ _ hr hinv)

theorem regInv_defaultCtor (size : Int) (g g1 : Statics) (p : Pointer)
    (h : Pointer.defaultCtor size g = some (g1, p)) (hinv : RegInv size g.refContainer) :
    RegInv size g1.refContainer := by
  unfold Pointer.defaultCtor at h
  cases hc : Pointer.ctor size g 0 with
  | none => simp [hc] at h
  | some r =>
    obtain ⟨g2, temp⟩ := r
    simp only [hc] at h
    cases hd : Pointer.dtor g2 temp with
    | none => simp [hd] at h
    | some g3 =>
      simp only [hd, Option.some.injEq, Prod.mk.injEq] at h
      rw [← h.1]
      exact regInv_dtor size g2 g3 temp hd (regInv_ctor size g g2 0 temp hc hinv)

theorem regInv_assignRaw (size : Int) (g g1 : Statics) (this p : Pointer) (t : Nat)
    (h : Pointer.assignRaw size g this t = some (g1, p)) (hinv : RegInv size g.refContainer) :
    RegInv size g1.refContainer := by
  unfold Pointer.assignRaw at h
  cases hm : modifyAt decr g.refContainer (findPtrInfo g.refContainer this.addr) with
  | none => simp [hm] at h
  | some reg1 =>
    simp only [hm] at h
    cases ha : attach size reg1 t with
    | none => simp [ha] at h
    | some reg2 =>
      simp only [ha] at h
      cases hs : setLocalData reg2 (findPtrInfo reg2 t) with
      | none => simp [hs] at h
      | some q =>
        simp only [hs, Option.some.injEq, Prod.mk.injEq] at h
        rw [← h.1]
        exact regInv_attach size _ _ t ha (regInv_modifyAt size decr shape_decr _ _ _ hm hinv)

theorem regInv_assignPtr (size : Int) (g g1 : Statics) (this rv p : Pointer)
    (h : Pointer.assignPtr g this rv = some (g1, p)) (hinv : RegInv size g.refContainer) :
    RegInv size g1.refContainer := by
  unfold Pointer.assignPtr at h
  cases hm : modifyAt decr g.refContainer (findPtrInfo g.refContainer this.addr) with
  | none => simp [hm] at h
  | some reg1 =>
    simp only [hm] at h
    cases hs : setLocalData reg1 (findPtrInfo reg1 rv.addr) with
    | none => simp [hs] at h
    | some q =>
      simp only [hs, Option.some.injEq, Prod.mk.injEq] at h
      rw [← h.1]
      exact regInv_modifyAt size decr shape_decr _ _ _ hm hinv

theorem regInv_shutdown (size : Int) (g g1 : Statics) (h : shutdown g = some g1)
    (hinv : RegInv size g.refContainer) : RegInv size g1.refContainer := by
  unfold shutdown at h
  by_cases hz : refContainerSize g = 0
  · simp only [hz, if_true, Option.some.injEq] at h
    subst h; exact hinv
  · simp only [hz, if_false, collect_eq, Option.some.injEq] at h
    rw [← h]
    apply regInv_survivors
    apply regInv_of_shape size g.refContainer _ _ hinv
    simp [List.map_map, Function.comp_def, shape]

theorem regInv_step (size : Int) (s s1 : State) (op : Op) (h : step size s op = some s1)
    (hinv : RegInv size s.gc.refContainer) : RegInv size s1.gc.refContainer := by
  cases op with
  | construct t =>
    simp only [step] at h
    cases hc : Pointer.ctor size s.gc t with
    | none => simp [hc] at h
    | some r =>
      obtain ⟨g, p⟩ := r
      simp only [hc, Option.some.injEq] at h
      rw [← h]
      exact regInv_ctor size _ _ _ _ hc hinv
  | defaultConstruct =>
    simp only [step] at h
    cases hc : Pointer.defaultCtor size s.gc with
    | none => simp [hc] at h
    | some r =>
      obtain ⟨g, p⟩ := r
      simp only [hc, Option.some.injEq] at h
      rw [← h]
      exact regInv_defaultCtor size _ _ _ hc hinv
  | copyConstruct i =>
    simp only [step] at h
    cases hi : s.live[i]? with
    | none => simp [hi] at h
    | some ob =>
      simp only [hi] at h
      cases hc : Pointer.copyCtor s.gc ob with
      | none => simp [hc] at h
      | some r =>
        obtain ⟨g, p⟩ := r
        simp only [hc, Option.some.injEq] at h
        rw [← h]
        exact regInv_copyCtor size _ _ _ _ hc hinv
  | assignRaw i t =>
    simp only [step] at h
    cases hi : s.live[i]? with
    | none => simp [hi] at h
    | some this =>
      simp only [hi] at h
      cases hc : Pointer.assignRaw size s.gc this t with
      | none => simp [hc] at h
      | some r =>
        obtain ⟨g, p⟩ := r
        simp only [hc, Option.some.injEq] at h
        rw [← h]
        exact regInv_assignRaw size _ _ _ _ _ hc hinv
  | assignPtr i j =>
    simp only [step] at h
    cases hi : s.live[i]? with
    | none => simp [hi] at h
    | some this =>
      cases hj : s.live[j]? with
      | none => simp [hi, hj] at h
      | some rv =>
        simp only [hi, hj] at h
        cases hc : Pointer.assignPtr s.gc this rv with
        | none => simp [hc] at h
        | some r =>
          obtain ⟨g, p⟩ := r
          simp only [hc, Option.some.injEq] at h
          rw [← h]
          exact regInv_assignPtr size _ _ _ _ _ hc hinv
  | destroy i =>
    simp only [step] at h
    cases hi : s.live[i]? with
    | none => simp [hi] at h
    | some this =>
      simp only [hi] at h
      cases hc : Pointer.dtor s.gc this with
      | none => simp [hc] at h
      | some g =>
        simp only [hc, Option.some.injEq] at h
        rw [← h]
        exact regInv_dtor size _ _ _ hc hinv
  | collect =>
    simp only [step, collect_eq, Option.some.injEq] at h
    rw [← h]
    exact regInv_survivors size _ hinv
  | shutdown =>
    simp only [step] at h
    cases hc : shutdown s.gc with
    | none => simp [hc] at h
    | some g =>
      simp only [hc, Option.some.injEq] at h
      rw [← h]
      exact regInv_shutdown size _ _ hc hinv

theorem regInv_reachable (size : Int) (s : State) (h : Reachable size s) :
    RegInv size s.gc.refContainer := by
  induction h with
  | init => exact ⟨List.nodup_nil, by simp [State.init, Statics.init]⟩
  | step op _ hstep ih => exact regInv_step size _ _ op hstep ih

/-! ## The sweep and the teardown: results -/

theorem survivors_eq_filter (reg : List PtrDetails) :
    survivors reg = reg.filter (fun d => decide (d.refCount ≠ 0)) := by
  unfold survivors
  apply List.filter_congr
  intro d _
  by_cases h : d.refCount = 0 <;> simp [PtrDetails.inUse, h, Nat.pos_of_ne_zero]

theorem garbage_eq_filter (reg : List PtrDetails) :
    garbage reg = reg.filter (fun d => decide (d.refCount = 0)) := by
  unfold garbage
  apply List.filter_congr
  intro d _
  by_cases h : d.refCount = 0 <;> simp [PtrDetails.inUse, h, Nat.pos_of_ne_zero]

theorem mem_survivors (reg : List PtrDetails) (d : PtrDetails) :
    d ∈ survivors reg ↔ d ∈ reg ∧ d.refCount ≠ 0 := by
  simp [survivors_eq_filter]

theorem mem_garbage (reg : List PtrDetails) (d : PtrDetails) :
    d ∈ garbage reg ↔ d ∈ reg ∧ d.refCount = 0 := by
  simp [garbage_eq_filter]

theorem map_addr_flatMap_free (l : List PtrDetails) :
    (l.flatMap free).map Dealloc.addr =
      (l.map (fun d => d.memPtr)).filter (fun a => decide (a ≠ 0)) := by
  induction l with
  | nil => rfl
  | cons d ds ih =>
    rw [List.flatMap_cons, List.map_append, ih, List.map_cons, List.filter_cons]
    by_cases hz : d.memPtr = 0
    · simp [free, hz]
    · by_cases ha : d.isArray <;> simp [free, hz, ha, Dealloc.addr]

theorem mem_flatMap_free (l : List PtrDetails) (ev : Dealloc) (h : ev ∈ l.flatMap free) :
    ∃ d ∈ l, d.memPtr = ev.addr ∧ d.memPtr ≠ 0 ∧
      ev = if d.isArray then Dealloc.array d.memPtr else Dealloc.scalar d.memPtr := by
  obtain ⟨d, hd, hev⟩ := List.mem_flatMap.mp h
  refine ⟨d, hd, ?_⟩
  unfold free at hev
  by_cases hz : d.memPtr = 0
  · simp [hz] at hev
  · by_cases ha : d.isArray <;> simp [hz, ha] at hev <;> subst hev <;> simp [Dealloc.addr, hz, ha]

theorem count_addr_flatMap_free (l : List PtrDetails) (d : PtrDetails)
    (hnd : (l.map (fun d => d.memPtr)).Nodup) (hd : d ∈ l) (hz : d.memPtr ≠ 0) :
    ((l.flatMap free).map Dealloc.addr).count d.memPtr = 1 := by
  rw [map_addr_flatMap_free]
  apply List.count_eq_one_of_mem (hnd.sublist (List.filter_sublist _))
  exact List.mem_filter.mpr ⟨List.mem_map_of_mem _ hd, by simpa using hz⟩

theorem nodup_memPtr_inj (l : List PtrDetails) (hnd : (l.map (fun d => d.memPtr)).Nodup)
    (d e : PtrDetails) (hd : d ∈ l) (he : e ∈ l) (h : d.memPtr = e.memPtr) : d = e :=
  List.inj_on_of_nodup_map hnd hd he h

/-- C4: for every registry `collect()` returns, and the registry afterwards is
the registry before with the zero-count records filtered out (the survivors
unchanged and in their order); no zero-count record remains, every record with
a nonzero count is still there, and the deallocations performed are those of
the zero-count records, in order. -/
theorem collect_removes_exactly_zero_counts (g : Statics) :
    ∃ memfreed g1, collect g = some (memfreed, g1) ∧
      g1.refContainer = g.refContainer.filter (fun d => decide (d.refCount ≠ 0)) ∧
      (∀ d ∈ g1.refContainer, d.refCount ≠ 0) ∧
      (∀ d ∈ g.refContainer, d.refCount ≠ 0 → d ∈ g1.refContainer) ∧
      g1.freed =
        g.freed ++ (g.refContainer.filter (fun d => decide (d.refCount = 0))).flatMap free ∧
      g1.first = g.first ∧ g1.atexitCalls = g.atexitCalls := by
  refine ⟨_, _, collect_eq g, survivors_eq_filter _, ?_, ?_, ?_, rfl, rfl⟩
  · intro d hd
    exact ((mem_survivors _ d).mp hd).2
  · intro d hd hc
    exact (mem_survivors _ d).mpr ⟨hd, hc⟩
  · simp only [garbage_eq_filter]

theorem shutdown_eq (g : Statics) :
    shutdown g = some { g with refContainer := [],
                               freed := g.freed ++ g.refContainer.flatMap free } := by
  unfold shutdown refContainerSize
  by_cases hz : g.refContainer.length = 0
  · have hnil : g.refContainer = [] := List.length_eq_zero.mp hz
    cases g
    simp only at hnil
    subst hnil
    simp
  · have hs : survivors (g.refContainer.map (fun d => { d with refCount := 0 })) = [] := by
      simp [survivors, PtrDetails.inUse, List.filter_eq_nil_iff]
    have hg : garbage (g.refContainer.map (fun d => { d with refCount := 0 })) =
        g.refContainer.map (fun d => { d with refCount := 0 }) := by
      simp [garbage, PtrDetails.inUse, List.filter_eq_self]
    have hf : (g.refContainer.map (fun d => { d with refCount := 0 })).flatMap free =
        g.refContainer.flatMap free := by
      rw [List.flatMap_map]
      rfl
    simp only [hz, if_false, collect_eq, hs, hg, hf]

/-- C7: for every registry `shutdown()` returns with the registry empty,
whatever the counts were; the deallocations it performs are those of the
non-null tracked addresses, so with at most one record per address each
non-null tracked address is deallocated exactly once; on an empty registry it
changes nothing and deallocates nothing. -/
theorem shutdown_empties_registry (g : Statics) :
    ∃ g1 evs, shutdown g = some g1 ∧ refContainerSize g1 = 0 ∧ g1.freed = g.freed ++ evs ∧
      (∀ ev ∈ evs, ev.addr ≠ 0 ∧ ∃ d ∈ g.refContainer, d.memPtr = ev.addr) ∧
      ((g.refContainer.map (fun d => d.memPtr)).Nodup →
        ∀ d ∈ g.refContainer, d.memPtr ≠ 0 → (evs.map Dealloc.addr).count d.memPtr = 1) ∧
      (g.refContainer = [] → g1 = g ∧ evs = []) := by
  refine ⟨_, g.refContainer.flatMap free, shutdown_eq g, rfl, rfl, ?_, ?_, ?_⟩
  · intro ev hev
    obtain ⟨d, hd, h1, h2, _⟩ := mem_flatMap_free _ ev hev
    exact ⟨by rw [← h1]; exact h2, d, hd, h1⟩
  · intro hnd d hd hz
    exact count_addr_flatMap_free _ d hnd hd hz
  · intro hnil
    cases g
    simp only at hnil
    subst hnil
    simp

/-- Witness for C7: three live records with counts 2, 1 and 3; afterwards the
registry is empty and each of the three addresses has been deallocated exactly
once. -/
theorem shutdown_empties_registry_witness :
    ∃ g1 evs, shutdown ⟨[⟨2, 10, false, 0⟩, ⟨1, 20, false, 0⟩, ⟨3, 30, false, 0⟩], false, 1, []⟩
        = some g1 ∧
      refContainerSize g1 = 0 ∧ g1.freed = evs ∧
      (evs.map Dealloc.addr).count 10 = 1 ∧ (evs.map Dealloc.addr).count 20 = 1 ∧
      (evs.map Dealloc.addr).count 30 = 1 := by
  obtain ⟨g1, evs, h1, h2, h3, _, h5, _⟩ := shutdown_empties_registry
    ⟨[⟨2, 10, false, 0⟩, ⟨1, 20, false, 0⟩, ⟨3, 30, false, 0⟩], false, 1, []⟩
  have hnd : (([⟨2, 10, false, 0⟩, ⟨1, 20, false, 0⟩, ⟨3, 30, false, 0⟩] :
      List PtrDetails).map (fun d => d.memPtr)).Nodup := by decide
  exact ⟨g1, evs, h1, h2, by simpa using h3,
    h5 hnd ⟨2, 10, false, 0⟩ (by simp) (by decide),
    h5 hnd ⟨1, 20, false, 0⟩ (by simp) (by decide),
    h5 hnd ⟨3, 30, false, 0⟩ (by simp) (by decide)⟩

/-! ## Reachable states -/

theorem reachable_run (size : Int) (ops : List Op) : ∀ (s s1 : State),
    Reachable size s → run size s ops = some s1 → Reachable size s1 := by
  induction ops with
  | nil =>
    intro s s1 hs h
    simp only [run, Option.some.injEq] at h
    subst h; exact hs
  | cons op ops ih =>
    intro s s1 hs h
    simp only [run] at h
    cases hstep : step size s op with
    | none => simp [hstep] at h
    | some s2 =>
      simp only [hstep] at h
      exact ih s2 s1 (Reachable.step op hs hstep) h

theorem isArray_ctor (size : Int) (hsize : IsInt size) (a : Nat) :
    (PtrDetails.ctor a size).isArray = decide (size ≠ 0) := by
  obtain ⟨h1, h2⟩ := hsize
  simp only [PtrDetails.ctor, gt_iff_lt, ne_eq, decide_not]
  by_cases hz : size = 0
  · subst hz; rfl
  · have : 0 < (size % 4294967296).toNat := by omega
    simp [this, hz]

theorem logInv_append (size : Int) (l1 l2 : List Dealloc) (h1 : LogInv size l1)
    (h2 : LogInv size l2) : LogInv size (l1 ++ l2) := by
  intro ev hev
  rcases List.mem_append.mp hev with h | h
  · exact h1 ev h
  · exact h2 ev h

theorem logInv_free (size : Int) (reg l : List PtrDetails) (hinv : RegInv size reg)
    (hl : ∀ d ∈ l, d ∈ reg) : LogInv size (l.flatMap free) := by
  intro ev hev
  obtain ⟨d, hd, h1, h2, h3⟩ := mem_flatMap_free l ev hev
  have hs := hinv.2 d (hl d hd)
  have hArr : d.isArray = (PtrDetails.ctor d.memPtr size).isArray :=
    congrArg (fun x => x.2.1) hs
  refine ⟨by rw [← h1]; exact h2, ?_⟩
  rw [hArr, h1] at h3
  exact h3

theorem logInv_collect (size : Int) (g : Statics) (hinv : RegInv size g.refContainer)
    (hlog : LogInv size g.freed) :
    LogInv size (g.freed ++ (garbage g.refContainer).flatMap free) :=
  logInv_append size _ _ hlog
    (logInv_free size g.refContainer _ hinv (fun d hd => ((mem_garbage _ d).mp hd).1))

theorem freed_ctor (size : Int) (g g1 : Statics) (t : Nat) (p : Pointer)
    (h : Pointer.ctor size g t = some (g1, p)) : g1.freed = g.freed := by
  unfold Pointer.ctor at h
  cases ha : attach size g.refContainer t with
  | none => simp [ha] at h
  | some reg =>
    simp only [ha] at h
    cases hs : setLocalData reg (findPtrInfo reg t) with
    | none => simp [hs] at h
    | some q =>
      simp only [hs, Option.some.injEq, Prod.mk.injEq] at h
      rw [← h.1]

theorem freed_copyCtor (g g1 : Statics) (ob p : Pointer)
    (h : Pointer.copyCtor g ob = some (g1, p)) : g1.freed = g.freed := by
  unfold Pointer.copyCtor at h
  cases ha : modifyAt incr g.refContainer (findPtrInfo g.refContainer ob.addr) with
  | none => simp [ha] at h
  | some reg =>
    simp only [ha] at h
    cases hs : setLocalData reg (findPtrInfo g.refContainer ob.addr) with
    | none => simp [hs] at h
    | some q =>
      simp only [hs, Option.some.injEq, Prod.mk.injEq] at h
      rw [← h.1]

theorem freed_assignRaw (size : Int) (g g1 : Statics) (this p : Pointer) (t : Nat)
    (h : Pointer.assignRaw size g this t = some (g1, p)) : g1.freed = g.freed := by
  unfold Pointer.assignRaw at h
  cases hm : modifyAt decr g.refContainer (findPtrInfo g.refContainer this.addr) with
  | none => simp [hm] at h
  | some reg1 =>
    simp only [hm] at h
    cases ha : attach size reg1 t with
    | none => simp [ha] at h
    | some reg2 =>
      simp only [ha] at h
      cases hs : setLocalData reg2 (findPtrInfo reg2 t) with
      | none => simp [hs] at h
      | some q =>
        simp only [hs, Option.some.injEq, Prod.mk.injEq] at h
        rw [← h.1]

theorem freed_assignPtr (g g1 : Statics) (this rv p : Pointer)
    (h : Pointer.assignPtr g this rv = some (g1, p)) : g1.freed = g.freed := by
  unfold Pointer.assignPtr at h
  cases hm : modifyAt decr g.refContainer (findPtrInfo g.refContainer this.addr) with
  | none => simp [hm] at h
  | some reg1 =>
    simp only [hm] at h
    cases hs : setLocalData reg1 (findPtrInfo reg1 rv.addr) with
    | none => simp [hs] at h
    | some q =>
      simp only [hs, Option.some.injEq, Prod.mk.injEq] at h
      rw [← h.1]

theorem logInv_dtor (size : Int) (g g1 : Statics) (this : Pointer)
    (h : Pointer.dtor g this = some g1) (hinv : RegInv size g.refContainer)
    (hlog : LogInv size g.freed) : LogInv size g1.freed := by
  unfold Pointer.dtor at h
  cases hr : release g.refContainer this.addr with
  | none => simp [hr] at h
  | some reg =>
    simp only [hr, collect_eq, Option.some.injEq] at h
    rw [← h]
    exact logInv_collect size { g with refContainer := reg }
      (regInv_release size _ _ _ hr hinv) hlog

theorem logInv_defaultCtor (size : Int) (g g1 : Statics) (p : Pointer)
    (h : Pointer.defaultCtor size g = some (g1, p)) (hinv : RegInv size g.refContainer)
    (hlog : LogInv size g.freed) : LogInv size g1.freed := by
  unfold Pointer.defaultCtor at h
  cases hc : Pointer.ctor size g 0 with
  | none => simp [hc] at h
  | some r =>
    obtain ⟨g2, temp⟩ := r
    simp only [hc] at h
    cases hd : Pointer.dtor g2 temp with
    | none => simp [hd] at h
    | some g3 =>
      simp only [hd, Option.some.injEq, Prod.mk.injEq] at h
      rw [← h.1]
      exact logInv_dtor size g2 g3 temp hd (regInv_ctor size g g2 0 temp hc hinv)
        (by rw [freed_ctor size g g2 0 temp hc]; exact hlog)

theorem logInv_step (size : Int) (s s1 : State) (op : Op) (h : step size s op = some s1)
    (hinv : RegInv size s.gc.refContainer) (hlog : LogInv size s.gc.freed) :
    LogInv size s1.gc.freed := by
  cases op with
  | construct t =>
    simp only [step] at h
    cases hc : Pointer.ctor size s.gc t with
    | none => simp [hc] at h
    | some r =>
      obtain ⟨g, p⟩ := r
      simp only [hc, Option.some.injEq] at h
      rw [← h]
      simpa [freed_ctor size _ _ _ _ hc] using hlog
  | defaultConstruct =>
    simp only [step] at h
    cases hc : Pointer.defaultCtor size s.gc with
    | none => simp [hc] at h
    | some r =>
      obtain ⟨g, p⟩ := r
      simp only [hc, Option.some.injEq] at h
      rw [← h]
      exact logInv_defaultCtor size _ _ _ hc hinv hlog
  | copyConstruct i =>
    simp only [step] at h
    cases hi : s.live[i]? with
    | none => simp [hi] at h
    | some ob =>
      simp only [hi] at h
      cases hc : Pointer.copyCtor s.gc ob with
      | none => simp [hc] at h
      | some r =>
        obtain ⟨g, p⟩ := r
        simp only [hc, Option.some.injEq] at h
        rw [← h]
        simpa [freed_copyCtor _ _ _ _ hc] using hlog
  | assignRaw i t =>
    simp only [step] at h
    cases hi : s.live[i]? with
    | none => simp [hi] at h
    | some this =>
      simp only [hi] at h
      cases hc : Pointer.assignRaw size s.gc this t with
      | none => simp [hc] at h
      | some r =>
        obtain ⟨g, p⟩ := r
        simp only [hc, Option.some.injEq] at h
        rw [← h]
        simpa [freed_assignRaw size _ _ _ _ _ hc] using hlog
  | assignPtr i j =>
    simp only [step] at h
    cases hi : s.live[i]? with
    | none => simp [hi] at h
    | some this =>
      cases hj : s.live[j]? with
      | none => simp [hi, hj] at h
      | some rv =>
        simp only [hi, hj] at h
        cases hc : Pointer.assignPtr s.gc this rv with
        | none => simp [hc] at h
        | some r =>
          obtain ⟨g, p⟩ := r
          simp only [hc, Option.some.injEq] at h
          rw [← h]
          simpa [freed_assignPtr _ _ _ _ _ hc] using hlog
  | destroy i =>
    simp only [step] at h
    cases hi : s.live[i]? with
    | none => simp [hi] at h
    | some this =>
      simp only [hi] at h
      cases hc : Pointer.dtor s.gc this with
      | none => simp [hc] at h
      | some g =>
        simp only [hc, Option.some.injEq] at h
        rw [← h]
        exact logInv_dtor size _ _ _ hc hinv hlog
  | collect =>
    simp only [step, collect_eq, Option.some.injEq] at h
    rw [← h]
    exact logInv_collect size s.gc hinv hlog
  | shutdown =>
    simp only [step, shutdown_eq, Option.some.injEq] at h
    rw [← h]
    exact logInv_append size _ _ hlog
      (logInv_free size s.gc.refContainer _ hinv (fun d hd => hd))

theorem logInv_reachable (size : Int) (s : State) (h : Reachable size s) :
    LogInv size s.gc.freed := by
  induction h with
  | init => intro ev hev; simp [State.init, Statics.init] at hev
  | step op hs hstep ih => exact logInv_step size _ _ op hstep (regInv_reachable size _ hs) ih

/-- C3: starting from the empty registry, after any sequence of raw-address
construction, default construction, copy construction, both assignments,
destruction, `collect()` and `shutdown()` that the program can perform, no two
records of `refContainer` have the same `memPtr`. -/
theorem registry_addresses_unique (size : Int) (s : State) (h : Reachable size s) :
    (s.gc.refContainer.map (fun d => d.memPtr)).Nodup :=
  (regInv_reachable size s h).1

/-- Witness for C3: two constructions from the same address, a default
construction, a second address, an assignment back to the first address and a
sweep. -/
theorem registry_addresses_unique_witness :
    ∃ s, run 0 State.init [Op.construct 1, Op.construct 1, Op.defaultConstruct,
        Op.construct 2, Op.assignRaw 3 1, Op.collect] = some s ∧
      s.gc.refContainer = [⟨3, 1, false, 0⟩] ∧
      (s.gc.refContainer.map (fun d => d.memPtr)).Nodup :=
  ⟨_, rfl, rfl, registry_addresses_unique 0 _
    (reachable_run 0 [Op.construct 1, Op.construct 1, Op.defaultConstruct,
        Op.construct 2, Op.assignRaw 3 1, Op.collect] State.init _ Reachable.init rfl)⟩

/-- C6: in every reachable state of `Pointer<T, size>`, every deallocation
performed so far released a non-null address, with `delete[]` if `size` is
non-zero and with `delete` if `size` is 0; and a sweep in that state removes all
zero-count records, deallocating exactly the non-null ones among them in that
way and performing no deallocation for a null address. -/
theorem sweep_uses_declared_deallocation (size : Int) (hsize : IsInt size) (s : State)
    (h : Reachable size s) :
    (∀ ev ∈ s.gc.freed, ev.addr ≠ 0 ∧ ev = declaredDealloc size ev.addr) ∧
    ∃ memfreed g1, collect s.gc = some (memfreed, g1) ∧
      g1.refContainer = s.gc.refContainer.filter (fun d => decide (d.refCount ≠ 0)) ∧
      g1.freed = s.gc.freed ++
        ((s.gc.refContainer.filter (fun d => decide (d.refCount = 0))).filter
          (fun d => decide (d.memPtr ≠ 0))).map (fun d => declaredDealloc size d.memPtr) := by
  have hinv := regInv_reachable size s h
  refine ⟨?_, _, _, collect_eq s.gc, survivors_eq_filter _, ?_⟩
  · intro ev hev
    obtain ⟨h1, h2⟩ := logInv_reachable size s h ev hev
    refine ⟨h1, ?_⟩
    rw [isArray_ctor size hsize] at h2
    by_cases hz : size = 0 <;> simpa [declaredDealloc, hz] using h2
  · simp only [garbage_eq_filter]
    congr 1
    have hall : ∀ d ∈ s.gc.refContainer.filter (fun d => decide (d.refCount = 0)),
        d.isArray = decide (size ≠ 0) := by
      intro d hd
      have hs := hinv.2 d (List.mem_of_mem_filter hd)
      have hArr : d.isArray = (PtrDetails.ctor d.memPtr size).isArray :=
        congrArg (fun x => x.2.1) hs
      rw [hArr, isArray_ctor size hsize]
    generalize s.gc.refContainer.filter (fun d => decide (d.refCount = 0)) = l at hall
    induction l with
    | nil => rfl
    | cons d ds ih =>
      have hd := hall d (List.mem_cons_self _ _)
      rw [List.flatMap_cons, ih (fun e he => hall e (List.mem_cons_of_mem _ he)),
        List.filter_cons]
      by_cases hz : d.memPtr = 0
      · simp [free, hz]
      · by_cases hs : size = 0 <;> simp [free, hz, hd, hs, declaredDealloc]

/-- Witness for C6: `Pointer<T, 5>`, two arrays and a null pointer; one array
has been reclaimed by a destructor and a null record awaits the sweep. -/
theorem sweep_uses_declared_deallocation_witness :
    ∃ s, run 5 State.init [Op.construct 1, Op.construct 2, Op.construct 0, Op.destroy 0,
        Op.assignRaw 1 2] = some s ∧
      s.gc.freed = [Dealloc.array 1] ∧
      (∀ ev ∈ s.gc.freed, ev.addr ≠ 0 ∧ ev = declaredDealloc 5 ev.addr) ∧
      ∃ memfreed g1, collect s.gc = some (memfreed, g1) ∧
        g1.refContainer = s.gc.refContainer.filter (fun d => decide (d.refCount ≠ 0)) ∧
        g1.freed = s.gc.freed ++
          ((s.gc.refContainer.filter (fun d => decide (d.refCount = 0))).filter
            (fun d => decide (d.memPtr ≠ 0))).map (fun d => declaredDealloc 5 d.memPtr) :=
  ⟨_, rfl, rfl, sweep_uses_declared_deallocation 5 ⟨by decide, by decide⟩ _
    (reachable_run 5 [Op.construct 1, Op.construct 2, Op.construct 0, Op.destroy 0,
        Op.assignRaw 1 2] State.init _ Reachable.init rfl)⟩

/-! ## The destructor -/

theorem release_found (reg pre post : List PtrDetails) (d : PtrDetails) (a : Nat)
    (hreg : reg = pre ++ d :: post) (hd : d.memPtr = a) (hpre : ∀ e ∈ pre, e.memPtr ≠ a)
    (hc : d.refCount ≠ 0) : release reg a = some (pre ++ decr d :: post) := by
  subst hreg
  have hf : findPtrInfo (pre ++ d :: post) a = pre.length := findPtrInfo_append pre d post a hd hpre
  unfold release
  simp only [hf, getElem?_append_length, modifyAt_append]
  have hlen : pre.length ≠ (pre ++ d :: post).length := by simp
  rw [if_pos hlen, if_pos hc]

/-- C5: with at most one record per address and a record for `a` of count 1,
destroying a `Pointer` whose `addr` is `a` returns and leaves no record for `a`;
the sweep of that destructor deallocates `a` exactly once when `a` is not null,
and deallocates no address whose record has a nonzero count after the
decrement. -/
theorem dtor_last_reference (g : Statics) (this : Pointer) (d : PtrDetails)
    (hnd : (g.refContainer.map (fun d => d.memPtr)).Nodup)
    (hd : d ∈ g.refContainer) (ha : d.memPtr = this.addr) (hc : d.refCount = 1) :
    ∃ reg1 g1 evs, release g.refContainer this.addr = some reg1 ∧
      Pointer.dtor g this = some g1 ∧
      (∀ e ∈ g1.refContainer, e.memPtr ≠ this.addr) ∧
      g1.freed = g.freed ++ evs ∧
      (this.addr ≠ 0 → (evs.map Dealloc.addr).count this.addr = 1) ∧
      (∀ e ∈ reg1, e.refCount ≠ 0 → ∀ ev ∈ evs, ev.addr ≠ e.memPtr) := by
  obtain ⟨pre, d1, post, h1, _, h3, h4⟩ :=
    findPtrInfo_found g.refContainer this.addr (findPtrInfo_of_mem _ _ d hd ha)
  have hd1 : d1 ∈ g.refContainer := by rw [h1]; simp
  have hdd : d1 = d := nodup_memPtr_inj _ hnd d1 d hd1 hd (by rw [h3, ha])
  subst hdd
  have hrel : release g.refContainer this.addr = some (pre ++ decr d1 :: post) :=
    release_found _ pre post d1 this.addr h1 h3 h4 (by omega)
  have hzero : (decr d1).refCount = 0 := by simp [decr, hc]
  have hmemd : decr d1 ∈ pre ++ decr d1 :: post := by simp
  have hshape : (pre ++ decr d1 :: post).map shape = g.refContainer.map shape := by
    rw [h1]; simp [shape_decr]
  have hnd1 : ((pre ++ decr d1 :: post).map (fun d => d.memPtr)).Nodup := by
    rw [map_memPtr_of_shape _ _ hshape]; exact hnd
  have hptr : (decr d1).memPtr = this.addr := by rw [← h3]; simp only [decr]
  refine ⟨pre ++ decr d1 :: post,
    { g with refContainer := survivors (pre ++ decr d1 :: post),
             freed := g.freed ++ (garbage (pre ++ decr d1 :: post)).flatMap free },
    (garbage (pre ++ decr d1 :: post)).flatMap free, hrel, ?_, ?_, rfl, ?_, ?_⟩
  · unfold Pointer.dtor
    simp only [hrel, collect_eq]
  · intro e he hea
    obtain ⟨hmem, hne⟩ := (mem_survivors _ e).mp he
    have := nodup_memPtr_inj _ hnd1 e (decr d1) hmem hmemd (by rw [hea, hptr])
    rw [this] at hne
    exact hne hzero
  · intro hnz
    have hg : decr d1 ∈ garbage (pre ++ decr d1 :: post) :=
      (mem_garbage _ _).mpr ⟨hmemd, hzero⟩
    have hndg : ((garbage (pre ++ decr d1 :: post)).map (fun d => d.memPtr)).Nodup :=
      hnd1.sublist ((List.filter_sublist _).map _)
    have := count_addr_flatMap_free _ (decr d1) hndg hg (by rw [hptr]; exact hnz)
    rw [hptr] at this
    exact this
  · intro e he hne ev hev hadr
    obtain ⟨r, hr, hra, _, _⟩ := mem_flatMap_free _ ev hev
    obtain ⟨hrm, hrz⟩ := (mem_garbage _ r).mp hr
    have := nodup_memPtr_inj _ hnd1 r e hrm he (by rw [hra, hadr])
    rw [this] at hrz
    exact hne hrz

/-- Witness for C5: the last reference to the scalar at address 10 goes away
while address 20 is still referenced twice. -/
theorem dtor_last_reference_witness :
    Pointer.dtor ⟨[⟨1, 10, false, 0⟩, ⟨2, 20, false, 0⟩], false, 1, []⟩ ⟨10, false, 0⟩ =
      some ⟨[⟨2, 20, false, 0⟩], false, 1, [Dealloc.scalar 10]⟩ ∧
    ∃ reg1 g1 evs,
      release [⟨1, 10, false, 0⟩, ⟨2, 20, false, 0⟩] 10 = some reg1 ∧
      Pointer.dtor ⟨[⟨1, 10, false, 0⟩, ⟨2, 20, false, 0⟩], false, 1, []⟩ ⟨10, false, 0⟩
        = some g1 ∧
      (∀ e ∈ g1.refContainer, e.memPtr ≠ 10) ∧
      g1.freed = [] ++ evs ∧
      ((10 : Nat) ≠ 0 → (evs.map Dealloc.addr).count 10 = 1) ∧
      (∀ e ∈ reg1, e.refCount ≠ 0 → ∀ ev ∈ evs, ev.addr ≠ e.memPtr) :=
  ⟨by decide,
    dtor_last_reference ⟨[⟨1, 10, false, 0⟩, ⟨2, 20, false, 0⟩], false, 1, []⟩ ⟨10, false, 0⟩
      ⟨1, 10, false, 0⟩ (by decide) (by decide) rfl rfl⟩

/-! ## Evaluations -/

/-- C1 (evaluation): after `p0 = Pointer(1)`, `p1 = Pointer(2)` and `p0 = p1`
two live objects cache address 2 while the record of address 2 has count 1, so
the counts do not match the live objects. -/
theorem counts_diverge_after_pointer_assignment :
    ∃ s, run 0 State.init [Op.construct 1, Op.construct 2, Op.assignPtr 0 1] = some s ∧
      s.gc.refContainer = [⟨0, 1, false, 0⟩, ⟨1, 2, false, 0⟩] ∧
      s.live = [⟨2, false, 0⟩, ⟨2, false, 0⟩] ∧ ¬ CountsMatch s := by
  refine ⟨_, rfl, rfl, rfl, ?_⟩
  intro h
  have := h ⟨1, 2, false, 0⟩ (List.mem_cons_of_mem _ (List.mem_cons_self _ _))
  revert this
  decide

/-- C2 (evaluation): with records for addresses 1 and 2 of count 1 each,
`lhs = rv` for `lhs` at 1 and `rv` at 2 decrements the record of 1 and leaves
the record of 2 at count 1: the count of `rv`'s record is not incremented. -/
theorem pointer_assignment_omits_increment :
    Pointer.assignPtr ⟨[⟨1, 1, false, 0⟩, ⟨1, 2, false, 0⟩], false, 1, []⟩
        ⟨1, false, 0⟩ ⟨2, false, 0⟩ =
      some (⟨[⟨0, 1, false, 0⟩, ⟨1, 2, false, 0⟩], false, 1, []⟩, ⟨2, false, 0⟩) := by
  decide

/-- C8 (evaluation): after `Pointer<T> p;` on the empty registry the object
`p` is alive with a null `addr` and the registry is empty, so `findPtrInfo`
does not find its address; and after `p0 = Pointer(1)`, `p1 = Pointer(2)`,
`p0 = p1` and the destruction of `p1`, the object `p0` is alive with `addr = 2`
while address 2 has been deallocated and has no record. -/
theorem live_pointer_without_record :
    (∃ s, run 0 State.init [Op.defaultConstruct] = some s ∧
      s.live = [⟨0, false, 0⟩] ∧ s.gc.refContainer = [] ∧ ¬ LiveRegistered s) ∧
    (∃ s, run 0 State.init [Op.construct 1, Op.construct 2, Op.assignPtr 0 1, Op.destroy 1]
        = some s ∧
      s.live = [⟨2, false, 0⟩] ∧ s.gc.refContainer = [] ∧
      s.gc.freed = [Dealloc.scalar 1, Dealloc.scalar 2] ∧ ¬ LiveRegistered s) := by
  refine ⟨⟨_, rfl, rfl, rfl, ?_⟩, ⟨_, rfl, rfl, rfl, rfl, ?_⟩⟩
  · intro h
    exact h ⟨0, false, 0⟩ (List.mem_cons_self _ _) rfl
  · intro h
    exact h ⟨2, false, 0⟩ (List.mem_cons_self _ _) rfl

/-- C9 (evaluation): after `p0 = Pointer(1)`, `p1 = Pointer(2)`, `p1 = p0`,
`p0 = 3` the record of address 1 has count 0 and `p1` still caches address 1;
the raw-address assignment `p1 = 4` then decrements that count, which wraps to
`2 ^ 32 - 1`. -/
theorem assignment_underflows_count :
    (∃ s, run 0 State.init [Op.construct 1, Op.construct 2, Op.assignPtr 1 0,
        Op.assignRaw 0 3] = some s ∧
      s.gc.refContainer = [⟨0, 1, false, 0⟩, ⟨0, 2, false, 0⟩, ⟨1, 3, false, 0⟩] ∧
      s.live = [⟨3, false, 0⟩, ⟨1, false, 0⟩]) ∧
    (∃ s, run 0 State.init [Op.construct 1, Op.construct 2, Op.assignPtr 1 0,
        Op.assignRaw 0 3, Op.assignRaw 1 4] = some s ∧
      s.gc.refContainer = [⟨4294967295, 1, false, 0⟩, ⟨0, 2, false, 0⟩, ⟨1, 3, false, 0⟩,
        ⟨1, 4, false, 0⟩]) :=
  ⟨⟨_, rfl, rfl, rfl⟩, ⟨_, rfl, rfl⟩⟩

/-- C10 (evaluation): on the initial statics `Pointer()` leaves the registry
empty, while `Pointer(nullptr)` leaves a null-address record of count 1. -/
theorem default_ctor_differs_from_null_ctor :
    Pointer.defaultCtor 0 Statics.init = some (⟨[], false, 1, []⟩, ⟨0, false, 0⟩) ∧
    Pointer.ctor 0 Statics.init 0 =
      some (⟨[⟨1, 0, false, 0⟩], false, 1, []⟩, ⟨0, false, 0⟩) := by
  decide

/-! ## The sweep: return value, bound on the scans, idempotence -/

theorem survivors_idem (reg : List PtrDetails) : survivors (survivors reg) = survivors reg := by
  unfold survivors
  rw [List.filter_filter]
  simp

theorem garbage_survivors (reg : List PtrDetails) : garbage (survivors reg) = [] := by
  rw [garbage_eq_filter, List.filter_eq_nil_iff]
  intro d hd
  have := ((mem_survivors reg d).mp hd).2
  simpa using this

theorem garbage_isEmpty_iff (reg : List PtrDetails) :
    (!(garbage reg).isEmpty) = true ↔ ∃ d ∈ reg, d.refCount = 0 := by
  constructor
  · intro h
    have hne : garbage reg ≠ [] := by
      intro hnil
      rw [hnil] at h
      simp at h
    obtain ⟨d, hd⟩ := List.exists_mem_of_ne_nil _ hne
    exact ⟨d, (mem_garbage reg d).mp hd⟩
  · rintro ⟨d, hd, hz⟩
    have hmem : d ∈ garbage reg := (mem_garbage reg d).mpr ⟨hd, hz⟩
    cases hg : garbage reg with
    | nil => rw [hg] at hmem; simp at hmem
    | cons e es => simp

theorem survivors_length_lt_iff (reg : List PtrDetails) :
    (survivors reg).length < reg.length ↔ ∃ d ∈ reg, d.refCount = 0 := by
  rw [survivors_eq_filter, List.length_filter_lt_length_iff_exists]
  simp

/-- C14: for every registry `collect()` returns, and its result is `true` if
and only if some record had `refCount` 0 at the call, which is the case if and
only if the registry has become shorter; on an empty registry it returns
`false` and changes nothing. -/
theorem collect_returns_true_iff (g : Statics) :
    ∃ memfreed g1, collect g = some (memfreed, g1) ∧
      (memfreed = true ↔ ∃ d ∈ g.refContainer, d.refCount = 0) ∧
      (memfreed = true ↔ g1.refContainer.length < g.refContainer.length) ∧
      (g.refContainer = [] → memfreed = false ∧ g1 = g) := by
  refine ⟨_, _, collect_eq g, garbage_isEmpty_iff _, ?_, ?_⟩
  · rw [garbage_isEmpty_iff]
    exact (survivors_length_lt_iff _).symm
  · intro hnil
    cases g
    simp only at hnil
    subst hnil
    simp [garbage, survivors]

/-- C19: on every registry the loop of `collect()` ends within (number of
zero-count records + 1) scans, with the result of the sweep: the registry
without its zero-count records and the deallocations of those records; the
number of scans `collect()` is given (registry length + 1) is therefore
enough. -/
theorem collect_terminates_within_bound (reg : List PtrDetails) (log : List Dealloc)
    (memfreed : Bool) :
    collectLoop ((reg.filter (fun d => decide (d.refCount = 0))).length + 1) reg log memfreed =
        some (memfreed || !(reg.filter (fun d => decide (d.refCount = 0))).isEmpty,
          reg.filter (fun d => decide (d.refCount ≠ 0)),
          log ++ (reg.filter (fun d => decide (d.refCount = 0))).flatMap free) ∧
      (reg.filter (fun d => decide (d.refCount = 0))).length + 1 ≤ reg.length + 1 ∧
      collectLoop (reg.length + 1) reg log memfreed =
        collectLoop ((reg.filter (fun d => decide (d.refCount = 0))).length + 1) reg log
          memfreed := by
  have h1 := collectLoop_eq ((garbage reg).length + 1) reg log memfreed (Nat.lt_succ_self _)
  have h2 := collectLoop_eq (reg.length + 1) reg log memfreed
    (Nat.lt_succ_of_le (garbage_length_le reg))
  have h3 := garbage_length_le reg
  rw [garbage_eq_filter, survivors_eq_filter] at h1 h2
  rw [garbage_eq_filter] at h3
  exact ⟨h1, Nat.succ_le_succ h3, by rw [h1, h2]⟩

/-- C20: for every registry, a second `collect()` immediately after the first
returns `false` and leaves the statics (registry and deallocation log) exactly
as the first call left them. -/
theorem collect_idempotent (g : Statics) :
    ∃ memfreed g1, collect g = some (memfreed, g1) ∧ collect g1 = some (false, g1) := by
  refine ⟨_, _, collect_eq g, ?_⟩
  rw [collect_eq]
  simp [survivors_idem, garbage_survivors]

/-! ## The destructor sweeps everything -/

theorem release_cases (reg : List PtrDetails) (a : Nat) :
    release reg a = some reg ∨
      ∃ pre d post, reg = pre ++ d :: post ∧ d.memPtr = a ∧
        release reg a = some (pre ++ decr d :: post) := by
  by_cases hp : findPtrInfo reg a = reg.length
  · left
    simp [release, hp]
  · obtain ⟨pre, d, post, h1, h2, h3, h4⟩ := findPtrInfo_found reg a hp
    by_cases hc : d.refCount = 0
    · left
      have hget : reg[findPtrInfo reg a]? = some d := by
        rw [h2, h1]; exact getElem?_append_length pre d post
      unfold release
      simp only [hget]
      rw [if_pos hp, if_neg (by simpa using hc)]
    · right
      exact ⟨pre, d, post, h1, h3, release_found reg pre post d a h1 h3 h4 hc⟩

theorem dtor_eq_of_release (g : Statics) (this : Pointer) (reg1 : List PtrDetails)
    (h : release g.refContainer this.addr = some reg1) :
    Pointer.dtor g this = some { g with refContainer := survivors reg1,
                                        freed := g.freed ++ (garbage reg1).flatMap free } := by
  simp only [Pointer.dtor, h, collect_eq]

/-- C17: for every registry and every `Pointer` the destructor returns; the
registry afterwards contains no record with `refCount` 0, whatever its address;
every record for another address whose count was nonzero is still there
unchanged, and every remaining record for another address is a record of the
registry before. -/
theorem dtor_sweeps_whole_registry (g : Statics) (this : Pointer) :
    ∃ g1, Pointer.dtor g this = some g1 ∧
      (∀ d ∈ g1.refContainer, d.refCount ≠ 0) ∧
      (∀ d ∈ g.refContainer, d.memPtr ≠ this.addr → d.refCount ≠ 0 → d ∈ g1.refContainer) ∧
      (∀ d ∈ g1.refContainer, d.memPtr ≠ this.addr → d ∈ g.refContainer) := by
  rcases release_cases g.refContainer this.addr with h | ⟨pre, d0, post, h1, h2, h3⟩
  · refine ⟨_, dtor_eq_of_release g this _ h, ?_, ?_, ?_⟩
    · intro d hd
      exact ((mem_survivors _ d).mp hd).2
    · intro d hd _ hc
      exact (mem_survivors _ d).mpr ⟨hd, hc⟩
    · intro d hd _
      exact ((mem_survivors _ d).mp hd).1
  · refine ⟨_, dtor_eq_of_release g this _ h3, ?_, ?_, ?_⟩
    · intro d hd
      exact ((mem_survivors _ d).mp hd).2
    · intro d hd ha hc
      refine (mem_survivors _ d).mpr ⟨?_, hc⟩
      rw [h1] at hd
      rcases List.mem_append.mp hd with hd | hd
      · exact List.mem_append_left _ hd
      · rcases List.mem_cons.mp hd with rfl | hd
        · exact absurd h2 ha
        · exact List.mem_append_right _ (List.mem_cons_of_mem _ hd)
    · intro d hd ha
      have hmem := ((mem_survivors _ d).mp hd).1
      rw [h1]
      rcases List.mem_append.mp hmem with hd | hd
      · exact List.mem_append_left _ hd
      · rcases List.mem_cons.mp hd with rfl | hd
        · exact absurd (by rw [← h2]; simp only [decr]) ha
        · exact List.mem_append_right _ (List.mem_cons_of_mem _ hd)

/-! ## Find-or-insert, copy construction, raw-address assignment -/

theorem findPtrInfo_fresh (reg : List PtrDetails) (t : Nat) (h : ∀ e ∈ reg, e.memPtr ≠ t) :
    findPtrInfo reg t = reg.length := by
  by_contra hne
  obtain ⟨pre, d, post, h1, _, h3, _⟩ := findPtrInfo_found reg t hne
  exact h d (by rw [h1]; simp) h3

theorem incr_below_max (d : PtrDetails) (h : d.refCount < 4294967295) :
    incr d = { d with refCount := d.refCount + 1 } := by
  have hmod : (d.refCount + 1) % UINT_MOD = d.refCount + 1 :=
    Nat.mod_eq_of_lt (by unfold UINT_MOD; omega)
  simp only [incr, hmod]

theorem attach_found (size : Int) (pre post : List PtrDetails) (d : PtrDetails) (t : Nat)
    (hd : d.memPtr = t) (hpre : ∀ e ∈ pre, e.memPtr ≠ t) :
    attach size (pre ++ d :: post) t = some (pre ++ incr d :: post) := by
  have hf : findPtrInfo (pre ++ d :: post) t = pre.length := findPtrInfo_append pre d post t hd hpre
  have hlen : pre.length ≠ (pre ++ d :: post).length := by simp
  unfold attach
  simp only [hf, modifyAt_append]
  rw [if_pos hlen]

theorem attach_fresh (size : Int) (reg : List PtrDetails) (t : Nat)
    (h : ∀ e ∈ reg, e.memPtr ≠ t) :
    attach size reg t = some (reg ++ [PtrDetails.ctor t size]) := by
  unfold attach
  simp only [findPtrInfo_fresh reg t h, ne_eq, not_true_eq_false, if_false]

theorem setLocalData_append (pre post : List PtrDetails) (d : PtrDetails) (t : Nat)
    (hd : d.memPtr = t) (hpre : ∀ e ∈ pre, e.memPtr ≠ t) :
    setLocalData (pre ++ d :: post) (findPtrInfo (pre ++ d :: post) t) =
      some { addr := t, isArray := d.isArray, arraySize := d.arraySize } := by
  rw [findPtrInfo_append pre d post t hd hpre]
  simp only [setLocalData, getElem?_append_length, hd]

theorem ctor_found (size : Int) (g : Statics) (pre post : List PtrDetails) (d : PtrDetails)
    (t : Nat) (hreg : g.refContainer = pre ++ d :: post) (hd : d.memPtr = t)
    (hpre : ∀ e ∈ pre, e.memPtr ≠ t) :
    Pointer.ctor size g t =
      some ({ refContainer := pre ++ incr d :: post, first := false,
              atexitCalls := if g.first then g.atexitCalls + 1 else g.atexitCalls,
              freed := g.freed },
            { addr := t, isArray := d.isArray, arraySize := d.arraySize }) := by
  have hi : (incr d).memPtr = t := by rw [← hd]; simp only [incr]
  unfold Pointer.ctor
  simp only [hreg, attach_found size pre post d t hd hpre,
    setLocalData_append pre post (incr d) t hi hpre]
  simp only [incr]

theorem ctor_fresh (size : Int) (g : Statics) (t : Nat)
    (h : ∀ e ∈ g.refContainer, e.memPtr ≠ t) :
    Pointer.ctor size g t =
      some ({ refContainer := g.refContainer ++ [PtrDetails.ctor t size], first := false,
              atexitCalls := if g.first then g.atexitCalls + 1 else g.atexitCalls,
              freed := g.freed },
            { addr := t, isArray := (PtrDetails.ctor t size).isArray,
              arraySize := (PtrDetails.ctor t size).arraySize }) := by
  have hs := setLocalData_append g.refContainer [] (PtrDetails.ctor t size) t rfl h
  unfold Pointer.ctor
  simp only [attach_fresh size _ t h, hs]

theorem ctor_total (size : Int) (g : Statics) (t : Nat) :
    ∃ g1 p, Pointer.ctor size g t = some (g1, p) ∧ g1.first = false ∧
      g1.atexitCalls = (if g.first then g.atexitCalls + 1 else g.atexitCalls) ∧
      g1.freed = g.freed := by
  by_cases hp : findPtrInfo g.refContainer t = g.refContainer.length
  · exact ⟨_, _, ctor_fresh size g t (findPtrInfo_end _ t hp), rfl, rfl, rfl⟩
  · obtain ⟨pre, d, post, h1, _, h3, h4⟩ := findPtrInfo_found _ t hp
    exact ⟨_, _, ctor_found size g pre post d t h1 h3 h4, rfl, rfl, rfl⟩

/-- C11 (counterexample): a record of address 1 whose count is `2 ^ 32 - 1`,
a state the program reaches after five operations; constructing a `Pointer`
from address 1 then leaves that record with count 0, so no record of address 1
has the count grown by one. -/
theorem ctor_wraps_count_at_max :
    (∃ s, run 0 State.init [Op.construct 1, Op.construct 2, Op.assignPtr 1 0,
        Op.assignRaw 0 3, Op.assignRaw 1 4, Op.construct 1] = some s ∧
      s.gc.refContainer = [⟨0, 1, false, 0⟩, ⟨0, 2, false, 0⟩, ⟨1, 3, false, 0⟩,
        ⟨1, 4, false, 0⟩]) ∧
    Pointer.ctor 0 ⟨[⟨4294967295, 1, false, 0⟩], false, 1, []⟩ 1 =
      some (⟨[⟨0, 1, false, 0⟩], false, 1, []⟩, ⟨1, false, 0⟩) ∧
    ¬ ∃ d ∈ [(⟨0, 1, false, 0⟩ : PtrDetails)], d.memPtr = 1 ∧ d.refCount = 4294967295 + 1 :=
  ⟨⟨_, rfl, rfl⟩, rfl, by decide⟩

/-- C11 (amended): constructing a `Pointer<T, size>` from `t` is
find-or-insert. If a record for `t` exists, the registry splits at the first
such record; when the count of that record is below `2 ^ 32 - 1` the count
grows by one, all other records and the registry size are unchanged, and the
new pointer has the fields of that record. Otherwise the record (`t`, count 1,
`isArray = (size != 0)`, `arraySize = size` as an `unsigned int`) is appended,
the size grows by one, all other records are unchanged, and the new pointer has
the fields of the new record. -/
theorem ctor_find_or_insert (size : Int) (hsize : IsInt size) (g : Statics) (t : Nat) :
    ((∃ e ∈ g.refContainer, e.memPtr = t) →
      ∃ pre d post, g.refContainer = pre ++ d :: post ∧ d.memPtr = t ∧
        ∀ e ∈ pre, e.memPtr ≠ t) ∧
    (∀ pre d post, g.refContainer = pre ++ d :: post → d.memPtr = t →
      (∀ e ∈ pre, e.memPtr ≠ t) → d.refCount < 4294967295 →
        ∃ g1, Pointer.ctor size g t = some (g1, ⟨t, d.isArray, d.arraySize⟩) ∧
          g1.refContainer = pre ++ { d with refCount := d.refCount + 1 } :: post ∧
          g1.refContainer.length = g.refContainer.length) ∧
    ((∀ e ∈ g.refContainer, e.memPtr ≠ t) →
      ∃ g1, Pointer.ctor size g t =
          some (g1, ⟨t, decide (size ≠ 0), (size % 4294967296).toNat⟩) ∧
        g1.refContainer =
          g.refContainer ++ [⟨1, t, decide (size ≠ 0), (size % 4294967296).toNat⟩] ∧
        g1.refContainer.length = g.refContainer.length + 1) := by
  refine ⟨?_, ?_, ?_⟩
  · rintro ⟨e, he, het⟩
    obtain ⟨pre, d, post, h1, _, h3, h4⟩ :=
      findPtrInfo_found g.refContainer t (findPtrInfo_of_mem _ t e he het)
    exact ⟨pre, d, post, h1, h3, h4⟩
  · intro pre d post h1 h3 h4 hlt
    refine ⟨_, ctor_found size g pre post d t h1 h3 h4, ?_, ?_⟩
    · simp only [incr_below_max d hlt]
    · simp [h1]
  · intro hfresh
    have hA := isArray_ctor size hsize t
    have hc := ctor_fresh size g t hfresh
    rw [hA] at hc
    refine ⟨_, hc, ?_, by simp⟩
    have hrec : PtrDetails.ctor t size =
        ⟨1, t, decide (size ≠ 0), (size % 4294967296).toNat⟩ := by
      rw [← hA]
      rfl
    rw [hrec]

/-- Witness for C11: `Pointer<T, 3>` on a registry holding address 10 with
count 2; address 10 is found and counted a third time, address 20 is appended
as an array record of size 3. -/
theorem ctor_find_or_insert_witness :
    (∃ g1, Pointer.ctor 3 ⟨[⟨2, 10, true, 3⟩], false, 1, []⟩ 10 = some (g1, ⟨10, true, 3⟩) ∧
      g1.refContainer = [⟨3, 10, true, 3⟩] ∧ g1.refContainer.length = 1) ∧
    (∃ g1, Pointer.ctor 3 ⟨[⟨2, 10, true, 3⟩], false, 1, []⟩ 20 = some (g1, ⟨20, true, 3⟩) ∧
      g1.refContainer = [⟨2, 10, true, 3⟩, ⟨1, 20, true, 3⟩] ∧ g1.refContainer.length = 2) :=
  ⟨(ctor_find_or_insert 3 ⟨by decide, by decide⟩ ⟨[⟨2, 10, true, 3⟩], false, 1, []⟩ 10).2.1
      [] ⟨2, 10, true, 3⟩ [] rfl rfl (by simp) (by decide),
    (ctor_find_or_insert 3 ⟨by decide, by decide⟩ ⟨[⟨2, 10, true, 3⟩], false, 1, []⟩ 20).2.2
      (by simp)⟩

theorem copyCtor_found (g : Statics) (pre post : List PtrDetails) (d : PtrDetails)
    (ob : Pointer) (hreg : g.refContainer = pre ++ d :: post) (hd : d.memPtr = ob.addr)
    (hpre : ∀ e ∈ pre, e.memPtr ≠ ob.addr) :
    Pointer.copyCtor g ob =
      some ({ g with refContainer := pre ++ incr d :: post },
            { addr := ob.addr, isArray := d.isArray, arraySize := d.arraySize }) := by
  have hf : findPtrInfo (pre ++ d :: post) ob.addr = pre.length :=
    findPtrInfo_append pre d post ob.addr hd hpre
  unfold Pointer.copyCtor
  simp only [hreg, hf, modifyAt_append, setLocalData, getElem?_append_length]
  simp only [incr, hd]

/-- C12 (counterexample): a record of address 1 whose count is `2 ^ 32 - 1`
with a live `Pointer` on it, a state the program reaches after seven
operations; copy-constructing from that `Pointer` leaves the record with
count 0, so no record of address 1 has the count incremented by one. -/
theorem copyCtor_wraps_count_at_max :
    (∃ s, run 0 State.init [Op.construct 1, Op.construct 2, Op.construct 5, Op.assignPtr 1 0,
        Op.assignPtr 2 0, Op.assignRaw 0 3, Op.assignRaw 1 4] = some s ∧
      s.gc.refContainer[0]? = some ⟨4294967295, 1, false, 0⟩ ∧
      s.live[2]? = some ⟨1, false, 0⟩) ∧
    (∃ s, run 0 State.init [Op.construct 1, Op.construct 2, Op.construct 5, Op.assignPtr 1 0,
        Op.assignPtr 2 0, Op.assignRaw 0 3, Op.assignRaw 1 4, Op.copyConstruct 2] = some s ∧
      s.gc.refContainer[0]? = some ⟨0, 1, false, 0⟩) ∧
    Pointer.copyCtor ⟨[⟨4294967295, 1, false, 0⟩], false, 1, []⟩ ⟨1, false, 0⟩ =
      some (⟨[⟨0, 1, false, 0⟩], false, 1, []⟩, ⟨1, false, 0⟩) ∧
    ¬ ∃ d ∈ [(⟨0, 1, false, 0⟩ : PtrDetails)], d.memPtr = 1 ∧ d.refCount = 4294967295 + 1 :=
  ⟨⟨_, rfl, rfl, rfl⟩, ⟨_, rfl, rfl⟩, rfl, by decide⟩

/-- C12 (amended): if the address of `ob` is registered, the registry splits at
the first record for it; when the count of that record is below `2 ^ 32 - 1`,
copy-constructing from `ob` returns, increments that count by exactly one,
leaves the registry size, every other record and the other statics unchanged,
and gives the new pointer the `addr`, `isArray` and `arraySize` of that
record. -/
theorem copyCtor_increments_found_record (g : Statics) (ob : Pointer) :
    ((∃ e ∈ g.refContainer, e.memPtr = ob.addr) →
      ∃ pre d post, g.refContainer = pre ++ d :: post ∧ d.memPtr = ob.addr ∧
        ∀ e ∈ pre, e.memPtr ≠ ob.addr) ∧
    (∀ pre d post, g.refContainer = pre ++ d :: post → d.memPtr = ob.addr →
      (∀ e ∈ pre, e.memPtr ≠ ob.addr) → d.refCount < 4294967295 →
        ∃ g1, Pointer.copyCtor g ob = some (g1, ⟨d.memPtr, d.isArray, d.arraySize⟩) ∧
          g1 = { g with refContainer := pre ++ { d with refCount := d.refCount + 1 } :: post } ∧
          g1.refContainer.length = g.refContainer.length) := by
  refine ⟨?_, ?_⟩
  · rintro ⟨e, he, het⟩
    obtain ⟨pre, d, post, h1, _, h3, h4⟩ :=
      findPtrInfo_found g.refContainer ob.addr (findPtrInfo_of_mem _ _ e he het)
    exact ⟨pre, d, post, h1, h3, h4⟩
  · intro pre d post h1 h3 h4 hlt
    refine ⟨_, by rw [h3]; exact copyCtor_found g pre post d ob h1 h3 h4, ?_, ?_⟩
    · simp only [incr_below_max d hlt]
    · simp [h1]

/-- Witness for C12: copying a pointer to address 20, the second of three
records. -/
theorem copyCtor_increments_found_record_witness :
    ∃ g1, Pointer.copyCtor ⟨[⟨1, 10, false, 0⟩, ⟨2, 20, false, 0⟩, ⟨1, 30, false, 0⟩],
        false, 1, []⟩ ⟨20, false, 0⟩ = some (g1, ⟨20, false, 0⟩) ∧
      g1 = ⟨[⟨1, 10, false, 0⟩, ⟨3, 20, false, 0⟩, ⟨1, 30, false, 0⟩], false, 1, []⟩ ∧
      g1.refContainer.length = 3 :=
  (copyCtor_increments_found_record
    ⟨[⟨1, 10, false, 0⟩, ⟨2, 20, false, 0⟩, ⟨1, 30, false, 0⟩], false, 1, []⟩
    ⟨20, false, 0⟩).2 [⟨1, 10, false, 0⟩] ⟨2, 20, false, 0⟩ [⟨1, 30, false, 0⟩] rfl rfl
    (by decide) (by decide)

theorem decr_one (d : PtrDetails) (h : d.refCount = 1) : decr d = { d with refCount := 0 } := by
  simp only [decr, h]
  rfl

theorem assignRaw_fresh (size : Int) (g : Statics) (this : Pointer) (b : Nat)
    (pre post : List PtrDetails) (d : PtrDetails) (hreg : g.refContainer = pre ++ d :: post)
    (ha : d.memPtr = this.addr) (hpre : ∀ e ∈ pre, e.memPtr ≠ this.addr)
    (hb : ∀ e ∈ g.refContainer, e.memPtr ≠ b) :
    Pointer.assignRaw size g this b =
      some ({ g with refContainer := (pre ++ decr d :: post) ++ [PtrDetails.ctor b size] },
            { addr := b, isArray := (PtrDetails.ctor b size).isArray,
              arraySize := (PtrDetails.ctor b size).arraySize }) := by
  have hf : findPtrInfo (pre ++ d :: post) this.addr = pre.length :=
    findPtrInfo_append pre d post this.addr ha hpre
  have hb1 : ∀ e ∈ pre ++ decr d :: post, e.memPtr ≠ b := by
    intro e he
    rcases List.mem_append.mp he with he | he
    · exact hb e (by rw [hreg]; exact List.mem_append_left _ he)
    · rcases List.mem_cons.mp he with rfl | he
      · have : d.memPtr ≠ b := hb d (by rw [hreg]; simp)
        simpa only [decr] using this
      · exact hb e (by rw [hreg]; exact List.mem_append_right _ (List.mem_cons_of_mem _ he))
  have hs := setLocalData_append (pre ++ decr d :: post) [] (PtrDetails.ctor b size) b rfl hb1
  unfold Pointer.assignRaw
  simp only [hreg, hf, modifyAt_append, attach_fresh size _ b hb1, hs]

/-- C13: in a registry whose first record for `a` (the address `p1` caches) has
count 1, and for an address `b` without a record, `p1 = b` returns; afterwards
the record for `a` is still in its place with count 0, one record for `b` with
count 1 has been appended, every other record and the deallocation log are
unchanged (nothing has been deallocated), and `p1.addr` is `b`. -/
theorem assignRaw_defers_collection (size : Int) (g : Statics) (this : Pointer) (b : Nat)
    (pre post : List PtrDetails) (d : PtrDetails) (hreg : g.refContainer = pre ++ d :: post)
    (ha : d.memPtr = this.addr) (hpre : ∀ e ∈ pre, e.memPtr ≠ this.addr)
    (hc : d.refCount = 1) (hb : ∀ e ∈ g.refContainer, e.memPtr ≠ b) :
    ∃ g1 p1 n, Pointer.assignRaw size g this b = some (g1, p1) ∧
      g1.refContainer = pre ++ { d with refCount := 0 } :: post ++ [n] ∧
      n.memPtr = b ∧ n.refCount = 1 ∧
      g1.freed = g.freed ∧ p1.addr = b ∧ p1.isArray = n.isArray ∧
      p1.arraySize = n.arraySize := by
  refine ⟨_, _, PtrDetails.ctor b size,
    assignRaw_fresh size g this b pre post d hreg ha hpre hb, ?_, rfl, rfl, rfl, rfl, rfl, rfl⟩
  simp only [decr_one d hc, List.append_assoc, List.cons_append]

/-- Witness for C13: `p1` is the only reference to address 10 and is assigned
the untracked address 30; the record of 10 stays with count 0 and nothing is
deallocated. -/
theorem assignRaw_defers_collection_witness :
    ∃ g1 p1 n, Pointer.assignRaw 0 ⟨[⟨2, 20, false, 0⟩, ⟨1, 10, false, 0⟩], false, 1, []⟩
        ⟨10, false, 0⟩ 30 = some (g1, p1) ∧
      g1.refContainer = [⟨2, 20, false, 0⟩] ++ ⟨0, 10, false, 0⟩ :: [] ++ [n] ∧
      n.memPtr = 30 ∧ n.refCount = 1 ∧ g1.freed = [] ∧ p1.addr = 30 ∧
      p1.isArray = n.isArray ∧ p1.arraySize = n.arraySize :=
  assignRaw_defers_collection 0 ⟨[⟨2, 20, false, 0⟩, ⟨1, 10, false, 0⟩], false, 1, []⟩
    ⟨10, false, 0⟩ 30 [⟨2, 20, false, 0⟩] [] ⟨1, 10, false, 0⟩ rfl rfl (by decide) rfl
    (by decide)

/-! ## The life of one scalar allocation -/

/-- C15: from the empty registry and a non-null scalar address `a`:
constructing `p1` from `a` gives one record of count 1; copy-constructing `p2`
from `p1` gives count 2 with still one record; destroying `p2` gives count 1
and deallocates nothing; destroying `p1` deallocates `a` once with scalar
`delete` and leaves the registry empty. -/
theorem scalar_lifecycle (a : Nat) (ha : a ≠ 0) :
    run 0 State.init [Op.construct a] =
      some ⟨⟨[⟨1, a, false, 0⟩], false, 1, []⟩, [⟨a, false, 0⟩]⟩ ∧
    run 0 State.init [Op.construct a, Op.copyConstruct 0] =
      some ⟨⟨[⟨2, a, false, 0⟩], false, 1, []⟩, [⟨a, false, 0⟩, ⟨a, false, 0⟩]⟩ ∧
    run 0 State.init [Op.construct a, Op.copyConstruct 0, Op.destroy 1] =
      some ⟨⟨[⟨1, a, false, 0⟩], false, 1, []⟩, [⟨a, false, 0⟩]⟩ ∧
    run 0 State.init [Op.construct a, Op.copyConstruct 0, Op.destroy 1, Op.destroy 0] =
      some ⟨⟨[], false, 1, [Dealloc.scalar a]⟩, []⟩ := by
  have h1 : step 0 State.init (Op.construct a) =
      some ⟨⟨[⟨1, a, false, 0⟩], false, 1, []⟩, [⟨a, false, 0⟩]⟩ := by
    simp [step, State.init, Statics.init, Pointer.ctor, attach, findPtrInfo, setLocalData,
      PtrDetails.ctor]
  have h2 : step 0 ⟨⟨[⟨1, a, false, 0⟩], false, 1, []⟩, [⟨a, false, 0⟩]⟩ (Op.copyConstruct 0) =
      some ⟨⟨[⟨2, a, false, 0⟩], false, 1, []⟩, [⟨a, false, 0⟩, ⟨a, false, 0⟩]⟩ := by
    simp [step, Pointer.copyCtor, findPtrInfo, modifyAt, setLocalData, incr, UINT_MOD]
  have h3 : step 0 ⟨⟨[⟨2, a, false, 0⟩], false, 1, []⟩, [⟨a, false, 0⟩, ⟨a, false, 0⟩]⟩
      (Op.destroy 1) = some ⟨⟨[⟨1, a, false, 0⟩], false, 1, []⟩, [⟨a, false, 0⟩]⟩ := by
    simp [step, Pointer.dtor, release, findPtrInfo, modifyAt, decr, collect_eq, survivors,
      garbage, PtrDetails.inUse]
  have h4 : step 0 ⟨⟨[⟨1, a, false, 0⟩], false, 1, []⟩, [⟨a, false, 0⟩]⟩ (Op.destroy 0) =
      some ⟨⟨[], false, 1, [Dealloc.scalar a]⟩, []⟩ := by
    simp [step, Pointer.dtor, release, findPtrInfo, modifyAt, decr, collect_eq, survivors,
      garbage, PtrDetails.inUse, free, ha]
  refine ⟨?_, ?_, ?_, ?_⟩
  · simp only [run, h1]
  · simp only [run, h1, h2]
  · simp only [run, h1, h2, h3]
  · simp only [run, h1, h2, h3, h4]

/-- Witness for C15: the scenario at address 1. -/
theorem scalar_lifecycle_witness :
    run 0 State.init [Op.construct 1] =
      some ⟨⟨[⟨1, 1, false, 0⟩], false, 1, []⟩, [⟨1, false, 0⟩]⟩ ∧
    run 0 State.init [Op.construct 1, Op.copyConstruct 0] =
      some ⟨⟨[⟨2, 1, false, 0⟩], false, 1, []⟩, [⟨1, false, 0⟩, ⟨1, false, 0⟩]⟩ ∧
    run 0 State.init [Op.construct 1, Op.copyConstruct 0, Op.destroy 1] =
      some ⟨⟨[⟨1, 1, false, 0⟩], false, 1, []⟩, [⟨1, false, 0⟩]⟩ ∧
    run 0 State.init [Op.construct 1, Op.copyConstruct 0, Op.destroy 1, Op.destroy 0] =
      some ⟨⟨[], false, 1, [Dealloc.scalar 1]⟩, []⟩ :=
  scalar_lifecycle 1 (by decide)

/-! ## The teardown hook -/

theorem dtor_frame (g : Statics) (this : Pointer) :
    ∃ g1, Pointer.dtor g this = some g1 ∧ g1.first = g.first ∧
      g1.atexitCalls = g.atexitCalls := by
  rcases release_cases g.refContainer this.addr with h | ⟨pre, d0, post, _, _, h3⟩
  · exact ⟨_, dtor_eq_of_release g this _ h, rfl, rfl⟩
  · exact ⟨_, dtor_eq_of_release g this _ h3, rfl, rfl⟩

theorem defaultCtor_total (size : Int) (g : Statics) :
    ∃ g1, Pointer.defaultCtor size g = some (g1, Pointer.fresh) ∧ g1.first = false ∧
      g1.atexitCalls = (if g.first then g.atexitCalls + 1 else g.atexitCalls) := by
  obtain ⟨g2, temp, hc, hf, ha, _⟩ := ctor_total size g 0
  obtain ⟨g3, hd, hf3, ha3⟩ := dtor_frame g2 temp
  refine ⟨g3, ?_, by rw [hf3, hf], by rw [ha3, ha]⟩
  simp only [Pointer.defaultCtor, hc, hd]

theorem hook_copyCtor (g g1 : Statics) (ob p : Pointer)
    (h : Pointer.copyCtor g ob = some (g1, p)) :
    g1.first = g.first ∧ g1.atexitCalls = g.atexitCalls := by
  unfold Pointer.copyCtor at h
  cases ha : modifyAt incr g.refContainer (findPtrInfo g.refContainer ob.addr) with
  | none => simp [ha] at h
  | some reg =>
    simp only [ha] at h
    cases hs : setLocalData reg (findPtrInfo g.refContainer ob.addr) with
    | none => simp [hs] at h
    | some q =>
      simp only [hs, Option.some.injEq, Prod.mk.injEq] at h
      rw [← h.1]
      exact ⟨rfl, rfl⟩

theorem hook_assignRaw (size : Int) (g g1 : Statics) (this p : Pointer) (t : Nat)
    (h : Pointer.assignRaw size g this t = some (g1, p)) :
    g1.first = g.first ∧ g1.atexitCalls = g.atexitCalls := by
  unfold Pointer.assignRaw at h
  cases hm : modifyAt decr g.refContainer (findPtrInfo g.refContainer this.addr) with
  | none => simp [hm] at h
  | some reg1 =>
    simp only [hm] at h
    cases ha : attach size reg1 t with
    | none => simp [ha] at h
    | some reg2 =>
      simp only [ha] at h
      cases hs : setLocalData reg2 (findPtrInfo reg2 t) with
      | none => simp [hs] at h
      | some q =>
        simp only [hs, Option.some.injEq, Prod.mk.injEq] at h
        rw [← h.1]
        exact ⟨rfl, rfl⟩

theorem hook_assignPtr (g g1 : Statics) (this rv p : Pointer)
    (h : Pointer.assignPtr g this rv = some (g1, p)) :
    g1.first = g.first ∧ g1.atexitCalls = g.atexitCalls := by
  unfold Pointer.assignPtr at h
  cases hm : modifyAt decr g.refContainer (findPtrInfo g.refContainer this.addr) with
  | none => simp [hm] at h
  | some reg1 =>
    simp only [hm] at h
    cases hs : setLocalData reg1 (findPtrInfo reg1 rv.addr) with
    | none => simp [hs] at h
    | some q =>
      simp only [hs, Option.some.injEq, Prod.mk.injEq] at h
      rw [← h.1]
      exact ⟨rfl, rfl⟩

theorem step_construct_hook (size : Int) (s : State) (t : Nat) :
    ∃ s1, step size s (Op.construct t) = some s1 ∧ s1.gc.first = false ∧
      s1.gc.atexitCalls = (if s.gc.first then s.gc.atexitCalls + 1 else s.gc.atexitCalls) := by
  obtain ⟨g1, p, hc, hf, ha, _⟩ := ctor_total size s.gc t
  exact ⟨{ gc := g1, live := s.live ++ [p] }, by simp only [step, hc], hf, ha⟩

theorem step_defaultConstruct_hook (size : Int) (s : State) :
    ∃ s1, step size s Op.defaultConstruct = some s1 ∧ s1.gc.first = false ∧
      s1.gc.atexitCalls = (if s.gc.first then s.gc.atexitCalls + 1 else s.gc.atexitCalls) := by
  obtain ⟨g1, hc, hf, ha⟩ := defaultCtor_total size s.gc
  exact ⟨{ gc := g1, live := s.live ++ [Pointer.fresh] }, by simp only [step, hc], hf, ha⟩

theorem step_hook (size : Int) (s s1 : State) (op : Op) (h : step size s op = some s1) :
    (s1.gc.first = s.gc.first ∧ s1.gc.atexitCalls = s.gc.atexitCalls) ∨
      (s1.gc.first = false ∧
        s1.gc.atexitCalls = (if s.gc.first then s.gc.atexitCalls + 1 else s.gc.atexitCalls) ∧
        ((∃ t, op = Op.construct t) ∨ op = Op.defaultConstruct)) := by
  cases op with
  | construct t =>
    obtain ⟨s2, h2, hf, ha⟩ := step_construct_hook size s t
    rw [h2, Option.some.injEq] at h
    subst h
    exact Or.inr ⟨hf, ha, Or.inl ⟨t, rfl⟩⟩
  | defaultConstruct =>
    obtain ⟨s2, h2, hf, ha⟩ := step_defaultConstruct_hook size s
    rw [h2, Option.some.injEq] at h
    subst h
    exact Or.inr ⟨hf, ha, Or.inr rfl⟩
  | copyConstruct i =>
    left
    simp only [step] at h
    cases hi : s.live[i]? with
    | none => simp [hi] at h
    | some ob =>
      simp only [hi] at h
      cases hc : Pointer.copyCtor s.gc ob with
      | none => simp [hc] at h
      | some r =>
        obtain ⟨g, p⟩ := r
        simp only [hc, Option.some.injEq] at h
        rw [← h]
        exact hook_copyCtor _ _ _ _ hc
  | assignRaw i t =>
    left
    simp only [step] at h
    cases hi : s.live[i]? with
    | none => simp [hi] at h
    | some this =>
      simp only [hi] at h
      cases hc : Pointer.assignRaw size s.gc this t with
      | none => simp [hc] at h
      | some r =>
        obtain ⟨g, p⟩ := r
        simp only [hc, Option.some.injEq] at h
        rw [← h]
        exact hook_assignRaw size _ _ _ _ _ hc
  | assignPtr i j =>
    left
    simp only [step] at h
    cases hi : s.live[i]? with
    | none => simp [hi] at h
    | some this =>
      cases hj : s.live[j]? with
      | none => simp [hi, hj] at h
      | some rv =>
        simp only [hi, hj] at h
        cases hc : Pointer.assignPtr s.gc this rv with
        | none => simp [hc] at h
        | some r =>
          obtain ⟨g, p⟩ := r
          simp only [hc, Option.some.injEq] at h
          rw [← h]
          exact hook_assignPtr _ _ _ _ _ hc
  | destroy i =>
    left
    simp only [step] at h
    cases hi : s.live[i]? with
    | none => simp [hi] at h
    | some this =>
      obtain ⟨g1, hd, hf, ha⟩ := dtor_frame s.gc this
      simp only [hi, hd, Option.some.injEq] at h
      rw [← h]
      exact ⟨hf, ha⟩
  | collect =>
    left
    simp only [step, collect_eq, Option.some.injEq] at h
    rw [← h]
    exact ⟨rfl, rfl⟩
  | shutdown =>
    left
    simp only [step, shutdown_eq, Option.some.injEq] at h
    rw [← h]
    exact ⟨rfl, rfl⟩

theorem hookInv_reachable (size : Int) (s : State) (h : Reachable size s) :
    s.gc.atexitCalls = (if s.gc.first then 0 else 1) := by
  induction h with
  | init => rfl
  | step op _ hstep ih =>
    rcases step_hook size _ _ op hstep with ⟨hf, ha⟩ | ⟨hf, ha, _⟩
    · rw [hf, ha]; exact ih
    · rw [hf, ha, ih]
      split <;> simp

/-- C16: in every reachable state the number of `atexit(shutdown)`
registrations is 0 while `first` is still true and 1 afterwards, so it never
exceeds 1; a raw-address or default construction always returns and leaves
exactly one registration; once `first` is false no operation registers again;
and a copy construction never changes the number of registrations. -/
theorem teardown_hook_armed_once (size : Int) (s : State) (h : Reachable size s) :
    s.gc.atexitCalls = (if s.gc.first then 0 else 1) ∧ s.gc.atexitCalls ≤ 1 ∧
    (∀ t, ∃ s1, step size s (Op.construct t) = some s1 ∧ s1.gc.first = false ∧
      s1.gc.atexitCalls = 1) ∧
    (∃ s1, step size s Op.defaultConstruct = some s1 ∧ s1.gc.first = false ∧
      s1.gc.atexitCalls = 1) ∧
    (∀ op s1, step size s op = some s1 → s.gc.first = false →
      s1.gc.first = false ∧ s1.gc.atexitCalls = 1) ∧
    (∀ i s1, step size s (Op.copyConstruct i) = some s1 →
      s1.gc.first = s.gc.first ∧ s1.gc.atexitCalls = s.gc.atexitCalls) := by
  have hinv := hookInv_reachable size s h
  refine ⟨hinv, by rw [hinv]; split <;> simp, ?_, ?_, ?_, ?_⟩
  · intro t
    obtain ⟨s1, h1, hf, ha⟩ := step_construct_hook size s t
    refine ⟨s1, h1, hf, ?_⟩
    have := hookInv_reachable size s1 (Reachable.step _ h h1)
    rw [this, hf]
    rfl
  · obtain ⟨s1, h1, hf, ha⟩ := step_defaultConstruct_hook size s
    refine ⟨s1, h1, hf, ?_⟩
    have := hookInv_reachable size s1 (Reachable.step _ h h1)
    rw [this, hf]
    rfl
  · intro op s1 hstep hfirst
    have h1 := hookInv_reachable size s1 (Reachable.step _ h hstep)
    rcases step_hook size _ _ op hstep with ⟨hf, _⟩ | ⟨hf, _, _⟩
    · rw [hf, hfirst] at h1
      exact ⟨by rw [hf, hfirst], h1⟩
    · rw [hf] at h1
      exact ⟨hf, h1⟩
  · intro i s1 hstep
    rcases step_hook size _ _ _ hstep with hh | ⟨_, _, hop⟩
    · exact hh
    · rcases hop with ⟨t, ht⟩ | ht <;> cases ht

/-- Witness for C16: after a raw-address construction, a default construction
and a copy construction there is one registration, and a further construction
leaves it at one. -/
theorem teardown_hook_armed_once_witness :
    ∃ s, run 0 State.init [Op.construct 1, Op.defaultConstruct, Op.copyConstruct 0] = some s ∧
      s.gc.atexitCalls = (if s.gc.first then 0 else 1) ∧ s.gc.atexitCalls ≤ 1 ∧
      s.gc.first = false ∧
      ∃ s1, step 0 s (Op.construct 2) = some s1 ∧ s1.gc.first = false ∧
        s1.gc.atexitCalls = 1 := by
  have h := teardown_hook_armed_once 0 _
    (reachable_run 0 [Op.construct 1, Op.defaultConstruct, Op.copyConstruct 0] State.init _
      Reachable.init rfl)
  exact ⟨_, rfl, h.1, h.2.1, rfl, h.2.2.1 2⟩

/-! ## Assignment to a default-constructed pointer -/

/-- C18 (evaluation): after `Pointer<int> p;` on the empty registry `p` is
alive with a null `addr` and the registry is empty, so the lookup of `p.addr`
returns `end()`; `p = t` then applies the decrement to `end()`, and so does
`p = q` for a `Pointer q` constructed from an address. -/
theorem assignment_lookup_misses_after_default_ctor :
    (∃ s, run 0 State.init [Op.defaultConstruct] = some s ∧ s.live = [⟨0, false, 0⟩] ∧
      s.gc.refContainer = [] ∧
      findPtrInfo s.gc.refContainer 0 = s.gc.refContainer.length ∧
      modifyAt decr s.gc.refContainer (findPtrInfo s.gc.refContainer 0) = none ∧
      Pointer.assignRaw 0 s.gc ⟨0, false, 0⟩ 1 = none) ∧
    run 0 State.init [Op.defaultConstruct, Op.assignRaw 0 1] = none ∧
    (∃ s, run 0 State.init [Op.defaultConstruct, Op.construct 7] = some s ∧
      s.live = [⟨0, false, 0⟩, ⟨7, false, 0⟩] ∧ s.gc.refContainer = [⟨1, 7, false, 0⟩] ∧
      findPtrInfo s.gc.refContainer 0 = s.gc.refContainer.length ∧
      Pointer.assignPtr s.gc ⟨0, false, 0⟩ ⟨7, false, 0⟩ = none) ∧
    run 0 State.init [Op.defaultConstruct, Op.construct 7, Op.assignPtr 0 1] = none :=
  ⟨⟨_, rfl, rfl, rfl, rfl, rfl, rfl⟩, rfl, ⟨_, rfl, rfl, rfl, rfl, rfl⟩, rfl⟩

end GC
